import Mathlib

/-
Formal model of the Citation & Resolution subsystem of thailand-law-mcp.

Strings are modelled as lists of Unicode scalar values (`List Char`).
The regular-expression grammars of `src/citation/parser.ts` are transcribed
as explicit backtracking matchers; every matcher explores alternatives in
the same order as the JavaScript engine does (greedy quantifiers try the
longest repetition first, lazy quantifiers the shortest, alternations go
left to right), so that the functions below compute the same match results
and the same capture groups as the source.
-/

set_option maxRecDepth 10000

abbrev Str := List Char

/-- Coerce a Lean string literal to the `List Char` model. -/
def str (s : String) : Str := s.data

/-- ASCII decimal digit, the JavaScript regex class d. -/
def isDigitCh (c : Char) : Bool := 48 ≤ c.toNat && c.toNat ≤ 57

/-- The JavaScript regex class s (whitespace), by code point. -/
def isJsWs (c : Char) : Bool :=
  c.toNat = 32 || c.toNat = 9 || c.toNat = 10 || c.toNat = 11 || c.toNat = 12 ||
  c.toNat = 13 || c.toNat = 0xA0 || c.toNat = 0x1680 ||
  (0x2000 ≤ c.toNat && c.toNat ≤ 0x200A) ||
  c.toNat = 0x2028 || c.toNat = 0x2029 || c.toNat = 0x202F ||
  c.toNat = 0x205F || c.toNat = 0x3000 || c.toNat = 0xFEFF

/-- Characters matched by the regex dot (everything except line terminators). -/
def isDotCh (c : Char) : Bool :=
  !(c.toNat = 10 || c.toNat = 13 || c.toNat = 0x2028 || c.toNat = 0x2029)

/-- ASCII lower-case letter, the class [a-z] without the ignore-case flag. -/
def isLowerAZ (c : Char) : Bool := 97 ≤ c.toNat && c.toNat ≤ 122

/-- ASCII lower-casing, enough for the ASCII patterns the parser uses
with the ignore-case flag. -/
def lowerCh (c : Char) : Char :=
  if 65 ≤ c.toNat && c.toNat ≤ 90 then Char.ofNat (c.toNat + 32) else c

/-- ASCII lower-casing of a string, modelling toLowerCase on the
ASCII-only inputs the parser feeds it. -/
def toLowerStr (s : Str) : Str := s.map lowerCh

/-- JavaScript String.prototype.trim (strips the class s on both ends). -/
def jsTrim (s : Str) : Str :=
  ((s.dropWhile isJsWs).reverse.dropWhile isJsWs).reverse

/-- Is `p` a prefix of `s` (decidable, by character equality). -/
def isPrefixStr : Str → Str → Bool
  | [], _ => true
  | _ :: _, [] => false
  | p :: ps, c :: cs => p = c && isPrefixStr ps cs

/-- Does `s` contain `pat` as a contiguous substring (String.prototype.includes). -/
def containsSubstr (s pat : Str) : Bool :=
  s.tails.any (fun t => isPrefixStr pat t)

/-- Join a list of strings with a separator (Array.prototype.join). -/
def joinSep (sep : Str) : List Str → Str
  | [] => []
  | [t] => t
  | t :: ts => t ++ sep ++ joinSep sep ts

/-- Worker for `splitWsTokens`: `acc` is the current token, reversed. -/
def splitWsAux : Str → Str → List Str
  | acc, [] => if acc = [] then [] else [acc.reverse]
  | acc, c :: r =>
    if isJsWs c then
      if acc = [] then splitWsAux [] r else acc.reverse :: splitWsAux [] r
    else splitWsAux (c :: acc) r

/-- Split into maximal whitespace-free tokens: the composition of
String.prototype.split on the regex s+ with the removal of empty items. -/
def splitWsTokens (s : Str) : List Str := splitWsAux [] s

/-- Digit character for a value below ten. -/
def digitCh : Nat → Char
  | 0 => '0' | 1 => '1' | 2 => '2' | 3 => '3' | 4 => '4'
  | 5 => '5' | 6 => '6' | 7 => '7' | 8 => '8' | 9 => '9'
  | _ => '0'

/-- Numeric value of a digit character. -/
def digitVal (c : Char) : Nat := c.toNat - 48

/-- Value of an all-digit string read in base ten. -/
def digitsToNat (cs : Str) : Nat := cs.foldl (fun a c => a * 10 + digitVal c) 0

/-- Worker for `natToDigits`; the fuel argument only bounds the recursion
depth and never runs out when it starts at least as large as `n`. -/
def natToDigitsGo : Nat → Nat → Str → Str
  | 0, n, acc => digitCh n :: acc
  | fuel + 1, n, acc =>
    if n < 10 then digitCh n :: acc
    else natToDigitsGo fuel (n / 10) (digitCh (n % 10) :: acc)

/-- Decimal digits of a natural number, most significant first. -/
def natToDigits (n : Nat) : Str := natToDigitsGo n n []

/-- Decimal rendering of an integer, as JavaScript template literals print it. -/
def intToStr (i : Int) : Str :=
  if i < 0 then '-' :: natToDigits i.natAbs else natToDigits i.toNat

/-- Numeric value of a captured all-digit fragment, as parseInt(m, 10)
computes it on the d-only capture groups of the citation grammars. -/
def parseIntDec (cs : Str) : Int := Int.ofNat (digitsToNat cs)

/-- Try `f` at `n`, then `n-1`, ..., down to `0`; first success wins.
This is the exploration order of a greedy quantifier that may match the
empty string. -/
def firstDown {α : Type} (f : Nat → Option α) : Nat → Option α
  | 0 => f 0
  | n + 1 =>
    match f (n + 1) with
    | some a => some a
    | none => firstDown f n

/-- Try `f` at `n`, then `n-1`, ..., down to `1`; first success wins.
This is the exploration order of a greedy quantifier that must consume
at least one character. -/
def firstDown1 {α : Type} (f : Nat → Option α) : Nat → Option α
  | 0 => none
  | n + 1 =>
    match f (n + 1) with
    | some a => some a
    | none => firstDown1 f n

example : jsTrim (str "  ab  ") = str "ab" := by decide
example : splitWsTokens (str " a  bc ") = [str "a", str "bc"] := by decide
example : natToDigits 2562 = str "2562" := by decide
example : intToStr (-43) = str "-43" := by decide
example : containsSubstr (str "abcd") (str "bc") = true := by decide
example : containsSubstr (str "abcd") (str "bd") = false := by decide

/-
Transcription of the seven citation grammars of src/citation/parser.ts.
Each regex is rendered as a matcher over `Str` that explores alternatives
in JavaScript order and returns the capture groups of the first overall
match.  Greedy pieces whose following context can never accept one of
their own characters are rendered as deterministic maximal munch, which
coincides with the backtracking semantics there.
-/

/-- Match a literal pattern exactly, returning the rest of the input. -/
def matchLit : Str → Str → Option Str
  | [], s => some s
  | _ :: _, [] => none
  | p :: ps, c :: cs => if c = p then matchLit ps cs else none

/-- Match a literal pattern case-insensitively (the pattern is given in
lower case), returning the rest of the input. -/
def matchLitCI : Str → Str → Option Str
  | [], s => some s
  | _ :: _, [] => none
  | p :: ps, c :: cs => if lowerCh c = p then matchLitCI ps cs else none

/-- Greedy s+ followed by the continuation `k`; the quantifier first
consumes the whole whitespace run and gives characters back one at a
time when `k` fails, but never fewer than one. -/
def wsPlusThen {α : Type} (s : Str) (k : Str → Option α) : Option α :=
  firstDown1 (fun j => k (s.drop j)) (s.takeWhile isJsWs).length

/-- Greedy s* followed by the continuation `k` (like `wsPlusThen` but the
run may be empty). -/
def wsStarThen {α : Type} (s : Str) (k : Str → Option α) : Option α :=
  firstDown (fun j => k (s.drop j)) (s.takeWhile isJsWs).length

/-- The separator s*,?s+ followed by `k`, with the full backtracking
order of the three pieces. -/
def sepCommaWsThen {α : Type} (s : Str) (k : Str → Option α) : Option α :=
  firstDown (fun i =>
    let r := s.drop i
    match (match r with
           | ',' :: r2 => wsPlusThen r2 k
           | _ => none) with
    | some a => some a
    | none => wsPlusThen r k) (s.takeWhile isJsWs).length

/-- The separator s*,?s* followed by `k`. -/
def sepCommaWsStarThen {α : Type} (s : Str) (k : Str → Option α) : Option α :=
  firstDown (fun i =>
    let r := s.drop i
    match (match r with
           | ',' :: r2 => wsStarThen r2 k
           | _ => none) with
    | some a => some a
    | none => wsStarThen r k) (s.takeWhile isJsWs).length

/-- Maximal run of d+ (nonempty), returning the run and the rest. -/
def munchDigits1 (s : Str) : Option (Str × Str) :=
  match s.takeWhile isDigitCh with
  | [] => none
  | d => some (d, s.dropWhile isDigitCh)

lemma len_dropWhile_le (p : Char → Bool) : ∀ l : Str, (l.dropWhile p).length ≤ l.length := by
  intro l
  induction l with
  | nil => simp [List.dropWhile]
  | cons c cs ih =>
    simp only [List.dropWhile]
    split
    · exact Nat.le_trans ih (Nat.le_succ _)
    · simp

/-- Worker for `munchGroups`; the fuel argument only bounds the recursion
depth and never runs out when it starts at least as large as the input
length, since each iteration consumes at least three characters. -/
def munchGroupsGo : Nat → Str → Str × Str
  | 0, s => ([], s)
  | fuel + 1, s =>
    match s with
    | '(' :: r =>
      (match r.takeWhile isDigitCh with
       | [] => ([], '(' :: r)
       | d =>
         (match r.dropWhile isDigitCh with
          | ')' :: r3 =>
            let g := munchGroupsGo fuel r3
            ('(' :: (d ++ ')' :: g.1), g.2)
          | _ => ([], '(' :: r)))
    | _ => ([], s)

/-- Greedy match of the group sequence ((d+))* of the pinpoint pattern,
returning the consumed text and the rest.  A failed iteration ends the
loop, exactly as the backtracking engine behaves. -/
def munchGroups (s : Str) : Str × Str := munchGroupsGo s.length s

/-- Greedy match of the pinpoint pattern d+(/d+)?((d+))*, returning the
matched text and the rest.  In every grammar the character following the
pinpoint is required to be something no pinpoint character can be, so
maximal munch coincides with the backtracking semantics. -/
def munchPin (s : Str) : Option (Str × Str) :=
  match munchDigits1 s with
  | none => none
  | some (d1, r1) =>
    let sl : Str × Str :=
      match r1 with
      | '/' :: r1' =>
        (match munchDigits1 r1' with
         | some (d2, r2') => ('/' :: d2, r2')
         | none => ([], r1))
      | _ => ([], r1)
    let g := munchGroups sl.2
    some (d1 ++ sl.1 ++ g.1, g.2)

/-- Lazy (.+?) followed by the continuation: try the shortest nonempty
prefix of dot-characters first, extending one character at a time. -/
def lazyDotPlus {α : Type} (tailF : Str → Option α) : Str → Option (Str × α)
  | [] => none
  | c :: r =>
    if isDotCh c then
      match tailF r with
      | some a => some ([c], a)
      | none =>
        match lazyDotPlus tailF r with
        | some (t, a) => some (c :: t, a)
        | none => none
    else none

/-- The alternative s.? of the section markers: the letter, then a
greedy optional dot that is given back if the continuation fails. -/
def markerSThen {α : Type} (s : Str) (k : Str → Option α) : Option α :=
  match s with
  | c :: r =>
    if lowerCh c = 's' then
      match r with
      | '.' :: r2 =>
        (match k r2 with
         | some a => some a
         | none => k r)
      | _ => k r
    else none
  | [] => none

/-- The alternation (?:Section|s.?) of the English grammars, with the
ignore-case flag; alternatives are tried left to right and the whole
continuation decides whether an alternative survives. -/
def markerSectionThen {α : Type} (s : Str) (k : Str → Option α) : Option α :=
  match (match matchLitCI (str "section") s with
         | some r => k r
         | none => none) with
  | some a => some a
  | none => markerSThen s k

/-- The alternation (?:Section|s.?|มาตรา) of the trailing and id-based
grammars. -/
def markerAnyThen {α : Type} (s : Str) (k : Str → Option α) : Option α :=
  match (match matchLitCI (str "section") s with
         | some r => k r
         | none => none) with
  | some a => some a
  | none =>
    match markerSThen s k with
    | some a => some a
    | none =>
      match matchLitCI (str "มาตรา") s with
      | some r => k r
      | none => none

/-- The second half E.? of the token B.?E.?, with the greedy optional
dot given back if the continuation fails. -/
def beAfterB {α : Type} (s2 : Str) (k : Str → Option α) : Option α :=
  match s2 with
  | e :: r2 =>
    if lowerCh e = 'e' then
      match r2 with
      | '.' :: r3 =>
        (match k r3 with
         | some a => some a
         | none => k r2)
      | _ => k r2
    else none
  | [] => none

/-- The token B.?E.? with the ignore-case flag; the two optional dots
are greedy and given back one at a time if the continuation fails. -/
def beTokThen {α : Type} (s : Str) (k : Str → Option α) : Option α :=
  match s with
  | b :: r =>
    if lowerCh b = 'b' then
      match r with
      | '.' :: r2 =>
        (match beAfterB r2 k with
         | some a => some a
         | none => beAfterB r k)
      | _ => beAfterB r k
    else none
  | [] => none

/-- Exactly four digit characters, the group (d{4}). -/
def take4Digits (s : Str) : Option (Str × Str) :=
  match s with
  | a :: b :: c :: d :: r =>
    if isDigitCh a && isDigitCh b && isDigitCh c && isDigitCh d then
      some ([a, b, c, d], r)
    else none
  | _ => none

/-- Does `s` match s*(d{4})$ (the anchored tail of the optional
parenthesised western year)?  The inner year is not captured. -/
def parenYearEnd (s : Str) : Bool :=
  (wsStarThen s (fun r =>
    match r with
    | '(' :: r2 =>
      (match take4Digits r2 with
       | some (_, ')' :: r3) => if r3 = [] then some () else none
       | _ => none)
    | _ => none)).isSome

/-- The anchored suffix (?:s*(d{4}))?$ after a captured year: the
optional group is tried first, then dropped. -/
def optParenYearEnd (s : Str) : Bool :=
  parenYearEnd s || s = []

/-- The non-anchored optional group (?:s*(d{4}))? followed by `k`. -/
def optParenYearThen {α : Type} (s : Str) (k : Str → Option α) : Option α :=
  match wsStarThen s (fun r =>
    match r with
    | '(' :: r2 =>
      (match take4Digits r2 with
       | some (_, ')' :: r3) => k r3
       | _ => none)
    | _ => none) with
  | some a => some a
  | none => k s

/-- Tail s+B.?E.?s*(d{4})(?:s*(d{4}))?$ of ENGLISH_BE_CITATION,
returning the captured era year. -/
def ebTail (s : Str) : Option Str :=
  wsPlusThen s (fun r1 => beTokThen r1 (fun r2 => wsStarThen r2 (fun r3 =>
    match take4Digits r3 with
    | some (y, r4) => if optParenYearEnd r4 then some y else none
    | none => none)))

/-- Tail s+(d{4})$ of the grammars that end in a bare year. -/
def ceTail (s : Str) : Option Str :=
  wsPlusThen s (fun r1 =>
    match take4Digits r1 with
    | some (y, r2) => if r2 = [] then some y else none
    | none => none)

/-- Tail s+พ.ศ.s*(d{4})$ of THAI_CITATION. -/
def thaiTail (s : Str) : Option Str :=
  wsPlusThen s (fun r1 =>
    match r1 with
    | 'พ' :: '.' :: 'ศ' :: '.' :: r2 => wsStarThen r2 (fun r3 =>
        match take4Digits r3 with
        | some (y, r4) => if r4 = [] then some y else none
        | none => none)
    | _ => none)

/-- THAI_CITATION, capturing (pinpoint, title, era year). -/
def thaiCit (s : Str) : Option (Str × Str × Str) :=
  match matchLit (str "มาตรา") s with
  | some r1 => wsPlusThen r1 (fun r2 =>
      match munchPin r2 with
      | some (pin, r3) => wsPlusThen r3 (fun r4 =>
          (lazyDotPlus thaiTail r4).map (fun ta => (pin, ta.1, ta.2)))
      | none => none)
  | none => none

/-- ENGLISH_BE_CITATION, capturing (pinpoint, title, era year). -/
def englishBE (s : Str) : Option (Str × Str × Str) :=
  markerSectionThen s (fun r1 => wsPlusThen r1 (fun r2 =>
    match munchPin r2 with
    | some (pin, r3) => sepCommaWsThen r3 (fun r4 =>
        (lazyDotPlus ebTail r4).map (fun ta => (pin, ta.1, ta.2)))
    | none => none))

/-- Tail of TRAILING_SECTION_BE after the lazy title, returning
(era year, pinpoint). -/
def tbTail (s : Str) : Option (Str × Str) :=
  wsPlusThen s (fun r1 => beTokThen r1 (fun r2 => wsStarThen r2 (fun r3 =>
    match take4Digits r3 with
    | some (y, r4) => optParenYearThen r4 (fun r5 => sepCommaWsStarThen r5 (fun r6 =>
        markerAnyThen r6 (fun r7 => wsStarThen r7 (fun r8 =>
          match munchPin r8 with
          | some (pin, r9) => if r9 = [] then some (y, pin) else none
          | none => none))))
    | none => none)))

/-- TRAILING_SECTION_BE, capturing (title, era year, pinpoint). -/
def trailingBE (s : Str) : Option (Str × Str × Str) :=
  (lazyDotPlus tbTail s).map (fun ta => (ta.1, ta.2.1, ta.2.2))

/-- SHORT_CITATION, capturing (pinpoint, title-or-abbreviation, year). -/
def shortCit (s : Str) : Option (Str × Str × Str) :=
  markerSThen s (fun r1 => wsPlusThen r1 (fun r2 =>
    match munchPin r2 with
    | some (pin, r3) => sepCommaWsThen r3 (fun r4 =>
        (lazyDotPlus ceTail r4).map (fun ta => (pin, ta.1, ta.2)))
    | none => none))

/-- Letter accepted by the leading [a-z] of ID_BASED under ignore-case. -/
def isIdLetter (c : Char) : Bool := isLowerAZ (lowerCh c)

/-- Character accepted by [a-z0-9-] of ID_BASED under ignore-case. -/
def isIdCh (c : Char) : Bool := isIdLetter c || isDigitCh c || c = '-'

/-- ID_BASED, capturing (identifier, pinpoint).  The greedy group
[a-z0-9-]+ gives characters back one at a time when the rest fails. -/
def idBased (s : Str) : Option (Str × Str) :=
  match s with
  | c :: r =>
    if isIdLetter c then
      firstDown1 (fun j =>
        sepCommaWsStarThen (r.drop j) (fun r2 => markerAnyThen r2 (fun r3 =>
          wsStarThen r3 (fun r4 =>
            match munchPin r4 with
            | some (pin, r5) => if r5 = [] then some (c :: r.take j, pin) else none
            | none => none)))) (r.takeWhile isIdCh).length
    else none
  | [] => none

/-- ENGLISH_CE_CITATION, capturing (pinpoint, title, year). -/
def englishCE (s : Str) : Option (Str × Str × Str) :=
  markerSectionThen s (fun r1 => wsPlusThen r1 (fun r2 =>
    match munchPin r2 with
    | some (pin, r3) => sepCommaWsThen r3 (fun r4 =>
        (lazyDotPlus ceTail r4).map (fun ta => (pin, ta.1, ta.2)))
    | none => none))

/-- Tail of TRAILING_SECTION_CE after the lazy title, returning
(year, pinpoint). -/
def tcTail (s : Str) : Option (Str × Str) :=
  wsPlusThen s (fun r1 =>
    match take4Digits r1 with
    | some (y, r2) => sepCommaWsStarThen r2 (fun r3 => markerAnyThen r3 (fun r4 =>
        wsStarThen r4 (fun r5 =>
          match munchPin r5 with
          | some (pin, r6) => if r6 = [] then some (y, pin) else none
          | none => none)))
    | none => none)

/-- TRAILING_SECTION_CE, capturing (title, year, pinpoint). -/
def trailingCE (s : Str) : Option (Str × Str × Str) :=
  (lazyDotPlus tcTail s).map (fun ta => (ta.1, ta.2.1, ta.2.2))

/-- The leading group (d+(/d+)?) of SECTION_REF: `d1` is the digit run
already consumed, `r1` the rest; returns (section capture, rest). -/
def refSecSplit (d1 r1 : Str) : Str × Str :=
  match r1 with
  | '/' :: r1t =>
    (match munchDigits1 r1t with
     | some (d2, r2t) => (d1 ++ '/' :: d2, r2t)
     | none => (d1, r1))
  | _ => (d1, r1)

/-- The optional group ((d+)) of SECTION_REF. -/
def refTryG2 (t : Str) : Option (Str × Str) :=
  match t with
  | '(' :: t1 =>
    (match munchDigits1 t1 with
     | some (d, ')' :: t2) => some (d, t2)
     | _ => none)
  | _ => none

/-- The optional group (([a-z])) of SECTION_REF. -/
def refTryG3 (t : Str) : Option (Str × Str) :=
  match t with
  | '(' :: c :: ')' :: t1 => if isLowerAZ c then some ([c], t1) else none
  | _ => none

/-- SECTION_REF: the anchored sub-grammar (d+(/d+)?)((d+))?(([a-z]))?$,
returning (section, optional subsection, optional paragraph).  The two
optional groups are explored in JavaScript order: with both, with only
the first, with only the second, with neither. -/
def matchSectionRef (s : Str) : Option (Str × Option Str × Option Str) :=
  match munchDigits1 s with
  | none => none
  | some (d1, r1) =>
    let sec := refSecSplit d1 r1
    match (match refTryG2 sec.2 with
           | some (g2, t2) =>
             (match (match refTryG3 t2 with
                     | some (g3, t3) =>
                       if t3 = [] then some (sec.1, some g2, some g3) else none
                     | none => none) with
              | some a => some a
              | none => if t2 = [] then some (sec.1, some g2, none) else none)
           | none => none) with
    | some a => some a
    | none =>
      match (match refTryG3 sec.2 with
             | some (g3, t3) =>
               if t3 = [] then some (sec.1, none, some g3) else none
             | none => none) with
      | some a => some a
      | none => if sec.2 = [] then some (sec.1, none, none) else none

/-- Citation kinds of the ParsedCitation interface. -/
inductive CitType where
  | statute
  | royal_decree
  | unknown
deriving DecidableEq

/-- The ParsedCitation interface of src/types (string fields modelled as
`Option Str`, absent by default). -/
structure ParsedCitation where
  valid : Bool
  type : CitType
  title : Option Str := none
  title_en : Option Str := none
  abbreviation : Option Str := none
  be_year : Option Int := none
  ce_year : Option Int := none
  «section» : Option Str := none
  subsection : Option Str := none
  paragraph : Option Str := none
  error : Option Str := none
deriving DecidableEq

/-- ABBREVIATION_MAP of the parser, in insertion order. -/
def abbreviationMap : List (Str × Str) :=
  [(str "pdpa", str "Personal Data Protection Act"),
   (str "cca", str "Computer Crime Act"),
   (str "csa", str "Cybersecurity Act"),
   (str "eta", str "Electronic Transactions Act"),
   (str "ccc", str "Civil and Commercial Code")]

/-- THAI_SHORT_MAP of the parser, in insertion order. -/
def thaiShortMap : List (Str × Str) :=
  [(str "พ.ร.บ.คุ้มครองข้อมูลส่วนบุคคล", str "Personal Data Protection Act"),
   (str "พ.ร.บ.ว่าด้วยการกระทำความผิดเกี่ยวกับคอมพิวเตอร์", str "Computer Crime Act"),
   (str "พ.ร.บ.การรักษาความมั่นคงปลอดภัยไซเบอร์", str "Cybersecurity Act"),
   (str "พ.ร.บ.ว่าด้วยธุรกรรมทางอิเล็กทรอนิกส์", str "Electronic Transactions Act"),
   (str "ประมวลกฎหมายแพ่งและพาณิชย์", str "Civil and Commercial Code")]

/-- resolveThaiTitle: first mapping whose key occurs in the title. -/
def resolveThaiTitle (thaiTitle : Str) : Option Str :=
  (thaiShortMap.find? (fun kv => containsSubstr thaiTitle kv.1)).map (fun kv => kv.2)

/-- resolveAbbreviation: exact lookup of the lower-cased abbreviation. -/
def resolveAbbreviation (ab : Str) : Option Str :=
  (abbreviationMap.find? (fun kv => kv.1 = toLowerStr ab)).map (fun kv => kv.2)

/-- parseSection of src/citation/parser.ts.  The captured groups of
SECTION_REF are never empty strings, so the source's squashing of empty
captures to undefined is the identity here. -/
def parseSection (sectionStr : Str) (title : Str) (beYear ceYear : Int)
    (ty : CitType) : ParsedCitation :=
  match matchSectionRef sectionStr with
  | none =>
    { valid := true, type := ty, title := some (jsTrim title),
      be_year := some beYear, ce_year := some ceYear,
      «section» := some sectionStr }
  | some (sec, sub, para) =>
    { valid := true, type := ty, title := some (jsTrim title),
      be_year := some beYear, ce_year := some ceYear,
      «section» := some sec, subsection := sub, paragraph := para }

/-- parseCitation of src/citation/parser.ts: the seven grammars tried in
source order, first match wins. -/
def parseCitation (citation : Str) : ParsedCitation :=
  let trimmed := jsTrim citation
  match thaiCit trimmed with
  | some (pin, t, y) =>
    let beYear := parseIntDec y
    let thaiTitle := jsTrim t
    let englishTitle := resolveThaiTitle thaiTitle
    parseSection pin (englishTitle.getD thaiTitle) beYear (beYear - 543) CitType.statute
  | none =>
  match englishBE trimmed with
  | some (pin, t, y) =>
    let beYear := parseIntDec y
    parseSection pin t beYear (beYear - 543) CitType.statute
  | none =>
  match trailingBE trimmed with
  | some (t, y, pin) =>
    let beYear := parseIntDec y
    parseSection pin t beYear (beYear - 543) CitType.statute
  | none =>
  match shortCit trimmed with
  | some (pin, t, y) =>
    let yearOrAbbrev := jsTrim t
    let year := parseIntDec y
    let resolved := resolveAbbreviation yearOrAbbrev
    let ceYear := if year > 2400 then year - 543 else year
    let beYear := if year > 2400 then year else year + 543
    parseSection pin (resolved.getD yearOrAbbrev) beYear ceYear CitType.statute
  | none =>
  match idBased trimmed with
  | some (idStr, pin) =>
    { valid := true, type := CitType.statute,
      title := some (toLowerStr idStr), «section» := some pin }
  | none =>
  match englishCE trimmed with
  | some (pin, t, y) =>
    let year := parseIntDec y
    let ceYear := if year > 2400 then year - 543 else year
    let beYear := if year > 2400 then year else year + 543
    parseSection pin t beYear ceYear CitType.statute
  | none =>
  match trailingCE trimmed with
  | some (t, y, pin) =>
    let year := parseIntDec y
    let ceYear := if year > 2400 then year - 543 else year
    let beYear := if year > 2400 then year else year + 543
    parseSection pin t beYear ceYear CitType.statute
  | none =>
    { valid := false, type := CitType.unknown,
      error := some (str "Could not parse Thai citation: \"" ++ trimmed ++ ['"']) }

example :
    parseCitation (str "Section 3, Personal Data Protection Act B.E. 2562") =
    { valid := true, type := CitType.statute,
      title := some (str "Personal Data Protection Act"),
      be_year := some 2562, ce_year := some 2019,
      «section» := some (str "3") } := by decide

example :
    parseCitation (str "Section 3, Personal Data Protection Act B.E. 2562 (2019)") =
    { valid := true, type := CitType.statute,
      title := some (str "Personal Data Protection Act"),
      be_year := some 2562, ce_year := some 2019,
      «section» := some (str "3") } := by decide

example :
    parseCitation (str "s. 3, PDPA 2019") =
    { valid := true, type := CitType.statute,
      title := some (str "Personal Data Protection Act"),
      be_year := some 2562, ce_year := some 2019,
      «section» := some (str "3") } := by decide

example :
    parseCitation (str "Personal Data Protection Act B.E. 2562, s. 3") =
    { valid := true, type := CitType.statute,
      title := some (str "Personal Data Protection Act"),
      be_year := some 2562, ce_year := some 2019,
      «section» := some (str "3") } := by decide

example :
    parseCitation (str "มาตรา 3 พ.ร.บ.คุ้มครองข้อมูลส่วนบุคคล พ.ศ. 2562") =
    { valid := true, type := CitType.statute,
      title := some (str "Personal Data Protection Act"),
      be_year := some 2562, ce_year := some 2019,
      «section» := some (str "3") } := by decide

example :
    parseCitation (str "pdpa-be2562, s. 3") =
    { valid := true, type := CitType.statute,
      title := some (str "pdpa-be2562"),
      «section» := some (str "3") } := by decide

example : (parseCitation (str "some random text")).valid = false := by decide
example : (parseCitation (str "some random text")).type = CitType.unknown := by decide
example : (parseCitation (str "")).valid = false := by decide

example :
    parseCitation (str "Section 3(1), Personal Data Protection Act B.E. 2562") =
    { valid := true, type := CitType.statute,
      title := some (str "Personal Data Protection Act"),
      be_year := some 2562, ce_year := some 2019,
      «section» := some (str "3"), subsection := some (str "1") } := by decide

/-
src/citation/formatter.ts
-/

/-- Render an optional year field as a template literal does. -/
def optNumStr : Option Int → Str
  | none => []
  | some i => intToStr i

/-- Render an optional string field as a template literal does. -/
def optStr : Option Str → Str
  | none => []
  | some t => t

/-- JavaScript falsiness of an optional string (absent or empty). -/
def strFalsyOpt : Option Str → Bool
  | none => true
  | some [] => true
  | some (_ :: _) => false

/-- buildPinpoint of src/citation/formatter.ts. -/
def buildPinpoint (p : ParsedCitation) : Str :=
  (optStr p.«section») ++
  (match p.subsection with
   | some s => '(' :: s ++ [')']
   | none => []) ++
  (match p.paragraph with
   | some s => '(' :: s ++ [')']
   | none => [])

/-- formatCitation of src/citation/formatter.ts.  The format is taken as
an arbitrary string so that the switch's default branch is reachable. -/
def formatCitation (parsed : ParsedCitation) (format : Str) : Str :=
  if parsed.valid = false || strFalsyOpt parsed.«section» then []
  else
    let pinpoint := buildPinpoint parsed
    if format = str "full_th" then
      jsTrim (str "มาตรา " ++ pinpoint ++ [' '] ++ optStr parsed.title ++
              str " พ.ศ. " ++ optNumStr parsed.be_year)
    else if format = str "full_en" then
      jsTrim (str "Section " ++ pinpoint ++ str ", " ++ optStr parsed.title ++
              str " B.E. " ++ optNumStr parsed.be_year ++
              str " (" ++ optNumStr parsed.ce_year ++ [')'])
    else if format = str "short" then
      jsTrim (str "s. " ++ pinpoint ++ str ", " ++
              (match parsed.abbreviation with
               | some a => a
               | none => optStr parsed.title) ++
              [' '] ++ optNumStr parsed.ce_year)
    else if format = str "pinpoint" then
      str "s. " ++ pinpoint
    else
      jsTrim (str "Section " ++ pinpoint ++ str ", " ++ optStr parsed.title ++
              str " B.E. " ++ optNumStr parsed.be_year ++
              str " (" ++ optNumStr parsed.ce_year ++ [')'])

example :
    formatCitation
      { valid := true, type := CitType.statute,
        title := some (str "Personal Data Protection Act"),
        be_year := some 2562, ce_year := some 2019,
        «section» := some (str "3") } (str "full_en") =
    str "Section 3, Personal Data Protection Act B.E. 2562 (2019)" := by decide

example :
    formatCitation
      { valid := true, type := CitType.statute,
        title := some (str "Personal Data Protection Act"),
        be_year := some 2562, ce_year := some 2019,
        «section» := some (str "3") } (str "full_th") =
    str "มาตรา 3 Personal Data Protection Act พ.ศ. 2562" := by decide

example :
    formatCitation
      { valid := true, type := CitType.statute,
        title := some (str "Personal Data Protection Act"),
        be_year := some 2562, ce_year := some 2019,
        «section» := some (str "3") } (str "short") =
    str "s. 3, Personal Data Protection Act 2019" := by decide

example :
    formatCitation
      { valid := true, type := CitType.statute,
        title := some (str "Personal Data Protection Act"),
        be_year := some 2562, ce_year := some 2019,
        «section» := some (str "3"), subsection := some (str "1") } (str "pinpoint") =
    str "s. 3(1)" := by decide

example :
    formatCitation { valid := false, type := CitType.unknown } (str "full_en") = [] := by decide

/-
src/citation/validator.ts and src/db/statute-id.ts (the document store
is the external collaborator of the spec; its five prepared queries are
modelled as the fields of `Database`, each taking exactly the bound
parameters the source passes).
-/

/-- A row of legal_documents as selected by the validator. -/
structure DocRow where
  id : Str
  title : Str
  title_en : Option Str
  status : Str
deriving DecidableEq

/-- The read-only store interface: one field per prepared query. -/
structure Database where
  /-- SELECT of the validator: LIKE pattern for the three title columns
  and the year bound twice plus once for the zero test. -/
  docLookup : Str → Int → Option DocRow
  /-- EXISTS-style SELECT of the validator on legal_provisions:
  document id, provision_ref, pinpoint, allow-prefix-match flag. -/
  provLookup : Str → Str → Str → Bool → Bool
  /-- SELECT id ... WHERE id = ? of resolveExistingStatuteId. -/
  idLookup : Str → Option Str
  /-- SELECT id ... WHERE title LIKE ? OR title_en LIKE ? of
  resolveExistingStatuteId (both bound to the same pattern). -/
  titleLikeLookup : Str → Str → Option Str
  /-- SELECT id ... WHERE short_name LIKE ? of resolveExistingStatuteId. -/
  shortLikeLookup : Str → Option Str

/-- The %...% pattern the source builds around a fragment. -/
def likePattern (t : Str) : Str := '%' :: t ++ ['%']

/-- The ValidationResult interface of src/types. -/
structure ValidationResult where
  citation : ParsedCitation
  document_exists : Bool
  provision_exists : Bool
  document_title : Option Str := none
  status : Option Str := none
  warnings : List Str
deriving DecidableEq

/-- validateCitation of src/citation/validator.ts. -/
def validateCitation (db : Database) (citation : Str) : ValidationResult :=
  let parsed := parseCitation citation
  if parsed.valid = false then
    { citation := parsed, document_exists := false, provision_exists := false,
      warnings := [parsed.error.getD (str "Invalid citation format")] }
  else
    let titleSearch := optStr parsed.title
    let yearSearch := (parsed.be_year.orElse (fun _ => parsed.ce_year)).getD 0
    match db.docLookup (likePattern titleSearch) yearSearch with
    | none =>
      { citation := parsed, document_exists := false, provision_exists := false,
        warnings := [str "Document \"" ++ titleSearch ++ str "\" not found in database"] }
    | some doc =>
      let warnings0 : List Str :=
        if doc.status = str "repealed" then [str "This statute has been repealed"] else []
      if strFalsyOpt parsed.«section» then
        { citation := parsed, document_exists := true, provision_exists := false,
          document_title := some (doc.title_en.getD doc.title),
          status := some doc.status, warnings := warnings0 }
      else
        let pinpoint := optStr parsed.«section» ++
          (match parsed.subsection with
           | some s => '(' :: s ++ [')']
           | none => []) ++
          (match parsed.paragraph with
           | some s => '(' :: s ++ [')']
           | none => [])
        let provisionRef := 's' :: pinpoint
        let allowPM := parsed.subsection.isNone && parsed.paragraph.isNone
        let provisionExists := db.provLookup doc.id provisionRef pinpoint allowPM
        { citation := parsed, document_exists := true,
          provision_exists := provisionExists,
          document_title := some (doc.title_en.getD doc.title),
          status := some doc.status,
          warnings := warnings0 ++
            (if provisionExists then []
             else [str "Section " ++ pinpoint ++ str " not found in " ++
                   (doc.title_en.getD doc.title)]) }

/-- resolveExistingStatuteId of src/db/statute-id.ts: exact id match,
then a LIKE match over the two title columns, then a LIKE match over the
short name; each stage runs only if the previous one found nothing. -/
def resolveExistingStatuteId (db : Database) (inputId : Str) : Option Str :=
  match db.idLookup inputId with
  | some found => some found
  | none =>
    match db.titleLikeLookup (likePattern inputId) (likePattern inputId) with
    | some found => some found
    | none => db.shortLikeLookup (likePattern inputId)

/-
src/db/fts-query.ts
-/

/-- Word character of the regex word-boundary assertion. -/
def isWordCh (c : Char) : Bool :=
  (65 ≤ c.toNat && c.toNat ≤ 90) || (97 ≤ c.toNat && c.toNat ≤ 122) ||
  isDigitCh c || c = '_'

/-- Worker for `containsWord`: `prev` is the character before `s`. -/
def containsWordFrom (w : Str) (prev : Option Char) (s : Str) : Bool :=
  ((match prev with
    | none => true
    | some p => !isWordCh p) &&
   isPrefixStr w s &&
   (match (s.drop w.length).head? with
    | none => true
    | some n => !isWordCh n)) ||
  (match s with
   | [] => false
   | c :: r => containsWordFrom w (some c) r)

/-- Does `s` contain `w` delimited by word boundaries on both sides? -/
def containsWord (w s : Str) : Bool := containsWordFrom w none s

/-- The test EXPLICIT_FTS_SYNTAX: a double quote anywhere, AND, OR or
NOT as a whole word, or a trailing asterisk.  (The character class of
the source spells the plain double quote three times.) -/
def explicitFtsTest (s : Str) : Bool :=
  s.any (fun c => c = '"') ||
  containsWord (str "AND") s || containsWord (str "OR") s ||
  containsWord (str "NOT") s ||
  s.getLast? = some '*'

/-- sanitiseToken of src/db/fts-query.ts, parametrised by the predicate
for the Unicode letter and number classes of the host regex engine
(hyphen and underscore are kept unconditionally). -/
def sanitiseToken (isLN : Char → Bool) (token : Str) : Str :=
  token.filter (fun c => isLN c || c = '-' || c = '_')

/-- Executable fragment of the Unicode letter/number classes, covering
the ASCII and Thai ranges; used to instantiate `sanitiseToken` on
concrete inputs. -/
def asciiThaiLN (c : Char) : Bool :=
  (65 ≤ c.toNat && c.toNat ≤ 90) || (97 ≤ c.toNat && c.toNat ≤ 122) ||
  isDigitCh c || (0xE01 ≤ c.toNat && c.toNat ≤ 0xE5B)

/-- Replace the two smart-quote code points by the plain double quote. -/
def normSmartQuotes (s : Str) : Str :=
  s.map (fun c => if c.toNat = 0x201C || c.toNat = 0x201D then '"' else c)

/-- Remove every semicolon (replace(/;/g, '')). -/
def stripSemis (s : Str) : Str := s.filter (fun c => c ≠ ';')

/-- Remove the comment sequences, scanning left to right without overlap
(replace(/--/g, '')). -/
def stripDoubleDash : Str → Str
  | '-' :: '-' :: r => stripDoubleDash r
  | c :: r => c :: stripDoubleDash r
  | [] => []

/-- Number of double quotes in a string. -/
def countQuotes (s : Str) : Nat := (s.filter (fun c => c = '"')).length

/-- The FtsQueryVariants interface. -/
structure FtsQueryVariants where
  primary : Str
  fallback : Option Str := none
deriving DecidableEq

/-- buildFtsQueryVariants of src/db/fts-query.ts, parametrised like
`sanitiseToken` by the letter/number predicate of the host engine. -/
def buildFtsQueryVariants (isLN : Char → Bool) (query : Str) : FtsQueryVariants :=
  let trimmed := (jsTrim query).take 1000
  if trimmed.length = 0 then { primary := str "\"\"" }
  else if explicitFtsTest trimmed then
    let normalised :=
      (stripDoubleDash (stripSemis (normSmartQuotes trimmed))).take 1000
    let primary :=
      if countQuotes normalised % 2 ≠ 0 then normalised ++ ['"'] else normalised
    { primary := primary }
  else
    let tokens := ((splitWsTokens trimmed).filter (fun t => t.length > 0)).map
      (sanitiseToken isLN) |>.filter (fun t => t.length > 0)
    if tokens = [] then { primary := str "\"\"" }
    else
      { primary := joinSep [' '] (tokens.map (fun t => '"' :: t ++ str "\"*")),
        fallback := some (joinSep (str " OR ") (tokens.map (fun t => t ++ ['*']))) }

example : buildFtsQueryVariants asciiThaiLN (str "") = { primary := str "\"\"" } := by decide
example :
    buildFtsQueryVariants asciiThaiLN (str "\"personal data\" AND controller") =
    { primary := str "\"personal data\" AND controller" } := by decide
example :
    buildFtsQueryVariants asciiThaiLN (str "personal data") =
    { primary := str "\"personal\"* \"data\"*",
      fallback := some (str "personal* OR data*") } := by decide
example :
    buildFtsQueryVariants asciiThaiLN (str "data; -- drop") =
    { primary := str "\"data\"* \"--\"* \"drop\"*",
      fallback := some (str "data* OR --* OR drop*") } := by decide

/-
Field lemmas for parseSection.
-/

lemma parseSection_valid (pin t : Str) (b c : Int) (ty : CitType) :
    (parseSection pin t b c ty).valid = true := by
  unfold parseSection; split <;> rfl

lemma parseSection_be (pin t : Str) (b c : Int) (ty : CitType) :
    (parseSection pin t b c ty).be_year = some b := by
  unfold parseSection; split <;> rfl

lemma parseSection_ce (pin t : Str) (b c : Int) (ty : CitType) :
    (parseSection pin t b c ty).ce_year = some c := by
  unfold parseSection; split <;> rfl

lemma parseSection_title (pin t : Str) (b c : Int) (ty : CitType) :
    (parseSection pin t b c ty).title = some (jsTrim t) := by
  unfold parseSection; split <;> rfl

lemma parseSection_type (pin t : Str) (b c : Int) (ty : CitType) :
    (parseSection pin t b c ty).type = ty := by
  unfold parseSection; split <;> rfl

/-- C4: in every ValidationResult the validator produces, a provision can
only be reported to exist when the document was found. -/
theorem c4_provision_implies_document (db : Database) (s : Str) :
    (validateCitation db s).provision_exists = true →
    (validateCitation db s).document_exists = true := by
  unfold validateCitation
  dsimp only
  split
  · simp
  · split
    · simp
    · split
      · simp
      · simp

/-- C4 witness: a store that has the document and the provision. -/
theorem c4_provision_implies_document_witness :
    (validateCitation
      { docLookup := fun _ _ => some
          { id := str "pdpa-be2562", title := str "t",
            title_en := some (str "Personal Data Protection Act"),
            status := str "in_force" },
        provLookup := fun _ _ _ _ => true,
        idLookup := fun _ => none,
        titleLikeLookup := fun _ _ => none,
        shortLikeLookup := fun _ => none }
      (str "Section 3, Personal Data Protection Act B.E. 2562")).document_exists = true :=
  c4_provision_implies_document _ _ (by decide)

/-- C6: the formatter returns the empty string whenever the citation is
invalid or has no section, and any unrecognised format string produces
exactly the default full English rendering. -/
theorem c6_formatter_total (p : ParsedCitation) (format : Str) :
    ((p.valid = false ∨ p.«section» = none) → formatCitation p format = []) ∧
    (format ≠ str "full_th" → format ≠ str "full_en" → format ≠ str "short" →
      format ≠ str "pinpoint" →
      formatCitation p format = formatCitation p (str "full_en")) := by
  constructor
  · intro h
    unfold formatCitation
    rcases h with h | h
    · simp [h]
    · simp [h, strFalsyOpt]
  · intro h1 h2 h3 h4
    unfold formatCitation
    split
    · rfl
    · simp [h1, h2, h3, h4]
      rw [if_neg (by decide)]

/-- C6 witness: instantiation at an invalid citation and at an
unrecognised format string. -/
theorem c6_formatter_total_witness :
    formatCitation { valid := false, type := CitType.unknown } (str "full_en") = [] ∧
    formatCitation
      { valid := true, type := CitType.statute, title := some (str "T"),
        be_year := some 2562, ce_year := some 2019, «section» := some (str "3") }
      (str "other") =
    formatCitation
      { valid := true, type := CitType.statute, title := some (str "T"),
        be_year := some 2562, ce_year := some 2019, «section» := some (str "3") }
      (str "full_en") :=
  ⟨(c6_formatter_total _ (str "full_en")).1 (Or.inl rfl),
   (c6_formatter_total _ (str "other")).2 (by decide) (by decide) (by decide) (by decide)⟩

/-- C7: the statute-id resolver is staged: an exact id hit is returned
no matter what the later stages would say; the title stage only runs
when the exact stage found nothing; the short-name stage only runs when
both earlier stages found nothing.  The function is total and returns
`none` rather than failing. -/
theorem c7_staged_resolution (db : Database) (inputId : Str) :
    (∀ found, db.idLookup inputId = some found →
      resolveExistingStatuteId db inputId = some found) ∧
    (db.idLookup inputId = none →
      ∀ found,
        db.titleLikeLookup (likePattern inputId) (likePattern inputId) = some found →
        resolveExistingStatuteId db inputId = some found) ∧
    (db.idLookup inputId = none →
      db.titleLikeLookup (likePattern inputId) (likePattern inputId) = none →
      resolveExistingStatuteId db inputId =
        db.shortLikeLookup (likePattern inputId)) := by
  refine ⟨?_, ?_, ?_⟩
  · intro found h
    unfold resolveExistingStatuteId
    rw [h]
  · intro h1 found h2
    unfold resolveExistingStatuteId
    rw [h1, h2]
  · intro h1 h2
    unfold resolveExistingStatuteId
    rw [h1, h2]

/-- C7 witness: a store whose exact stage hits, with later stages that
would disagree; the exact id wins. -/
theorem c7_staged_resolution_witness :
    resolveExistingStatuteId
      { docLookup := fun _ _ => none,
        provLookup := fun _ _ _ _ => false,
        idLookup := fun i => if i = str "pdpa-be2562" then some (str "pdpa-be2562") else none,
        titleLikeLookup := fun _ _ => some (str "other-id"),
        shortLikeLookup := fun _ => some (str "third-id") }
      (str "pdpa-be2562") = some (str "pdpa-be2562") :=
  (c7_staged_resolution _ _).1 _ (by decide)

/-- C2: a parse result carries an era year exactly when it carries a
western year, and the two always differ by the fixed offset 543 in both
directions. -/
theorem c2_years_paired (s : Str) :
    ((parseCitation s).be_year = none ↔ (parseCitation s).ce_year = none) ∧
    (∀ b, (parseCitation s).be_year = some b →
      (parseCitation s).ce_year = some (b - 543)) ∧
    (∀ c, (parseCitation s).ce_year = some c →
      (parseCitation s).be_year = some (c + 543)) := by
  unfold parseCitation
  dsimp only
  repeat' split
  all_goals refine ⟨?_, ?_, ?_⟩
  all_goals try intro b hb
  all_goals try intro c hc
  all_goals simp only [parseSection_be, parseSection_ce, Option.some.injEq] at *
  all_goals try (split_ifs at * <;> omega)
  all_goals try omega
  all_goals simp_all

/-- C2 witness: the pairing at a concretely parsed citation. -/
theorem c2_years_paired_witness :
    (parseCitation (str "s. 3, PDPA 2019")).ce_year = some (2562 - 543) :=
  (c2_years_paired (str "s. 3, PDPA 2019")).2.1 2562 (by decide)

lemma countQuotes_append (a b : Str) :
    countQuotes (a ++ b) = countQuotes a + countQuotes b := by
  simp [countQuotes, List.filter_append]

/-- C8: on explicit-syntax input the query builder returns exactly one
variant, the normalisation pipeline of the source applied to the
trimmed and capped input, and that primary always carries an even
number of double quotes. -/
theorem c8_explicit_mode (isLN : Char → Bool) (s : Str) :
    explicitFtsTest ((jsTrim s).take 1000) = true →
    buildFtsQueryVariants isLN s =
      { primary :=
          (let normalised :=
            (stripDoubleDash (stripSemis (normSmartQuotes ((jsTrim s).take 1000)))).take 1000
           if countQuotes normalised % 2 ≠ 0 then normalised ++ ['"'] else normalised),
        fallback := none } ∧
    countQuotes (buildFtsQueryVariants isLN s).primary % 2 = 0 := by
  intro h
  have hne : ¬ ((jsTrim s).take 1000).length = 0 := by
    intro h0
    rw [List.length_eq_zero] at h0
    rw [h0] at h
    exact absurd h (by decide)
  unfold buildFtsQueryVariants
  dsimp only
  rw [if_neg hne, if_pos h]
  refine ⟨rfl, ?_⟩
  by_cases hq :
      countQuotes ((stripDoubleDash (stripSemis (normSmartQuotes ((jsTrim s).take 1000)))).take 1000) % 2 = 0
  · simp only [hq]
    rw [if_neg (by omega)]
    exact hq
  · rw [if_pos (by omega)]
    simp only [countQuotes_append]
    have : countQuotes ['"'] = 1 := by decide
    omega

/-- C8 witness: a concrete explicit-syntax query with an unbalanced
quote; the primary gets a closing quote and no fallback is produced. -/
theorem c8_explicit_mode_witness :
    buildFtsQueryVariants asciiThaiLN (str "\"personal data; --") =
      { primary := str "\"personal data \"", fallback := none } ∧
    countQuotes (buildFtsQueryVariants asciiThaiLN (str "\"personal data; --")).primary % 2 = 0 :=
  c8_explicit_mode asciiThaiLN (str "\"personal data; --") (by decide)

/-- The tokens the query builder extracts in natural-language mode. -/
def nlTokens (isLN : Char → Bool) (s : Str) : List Str :=
  (((splitWsTokens ((jsTrim s).take 1000)).filter (fun t => t.length > 0)).map
    (sanitiseToken isLN)).filter (fun t => t.length > 0)

/-- C9: in natural-language mode the builder tokenises on whitespace,
sanitises each token, and drops emptied tokens; with no surviving token
(in particular on empty or whitespace-only input) it returns the empty
phrase query with no fallback, otherwise the quoted wildcard conjunction
as primary and the wildcard disjunction as fallback. -/
theorem c9_natural_mode (isLN : Char → Bool) (s : Str) :
    explicitFtsTest ((jsTrim s).take 1000) = false →
    (nlTokens isLN s = [] →
      buildFtsQueryVariants isLN s = { primary := str "\"\"", fallback := none }) ∧
    (nlTokens isLN s ≠ [] →
      buildFtsQueryVariants isLN s =
        { primary := joinSep [' '] ((nlTokens isLN s).map (fun t => '"' :: t ++ str "\"*")),
          fallback := some (joinSep (str " OR ") ((nlTokens isLN s).map (fun t => t ++ ['*']))) }) := by
  intro h
  unfold buildFtsQueryVariants nlTokens
  dsimp only
  by_cases h0 : ((jsTrim s).take 1000).length = 0
  · rw [if_pos h0]
    have he : (jsTrim s).take 1000 = [] := List.length_eq_zero.mp h0
    constructor
    · intro _; rfl
    · intro hne
      exfalso
      apply hne
      rw [he]
      rfl
  · rw [if_neg h0, if_neg (by rw [h]; exact Bool.false_ne_true)]
    by_cases ht :
        (((splitWsTokens ((jsTrim s).take 1000)).filter (fun t => t.length > 0)).map
          (sanitiseToken isLN)).filter (fun t => t.length > 0) = []
    · rw [if_pos ht]
      refine ⟨fun _ => rfl, fun hne => absurd ?_ hne⟩
      exact ht
    · rw [if_neg ht]
      refine ⟨fun he => absurd ?_ ht, fun _ => rfl⟩
      exact he

/-- C9 witness: concrete natural-language inputs, one with no surviving
token and one with two tokens. -/
theorem c9_natural_mode_witness :
    buildFtsQueryVariants asciiThaiLN (str "  !!  ") = { primary := str "\"\"", fallback := none } ∧
    buildFtsQueryVariants asciiThaiLN (str "personal data") =
      { primary := str "\"personal\"* \"data\"*",
        fallback := some (str "personal* OR data*") } :=
  ⟨(c9_natural_mode asciiThaiLN (str "  !!  ") (by decide)).1 (by decide),
   by
    have h := (c9_natural_mode asciiThaiLN (str "personal data") (by decide)).2 (by decide)
    rw [h]
    decide⟩

/-
Branch characterisations of parseCitation: one lemma per grammar, under
the failure of all earlier grammars.
-/

lemma pc_thai (s pin t y : Str) (h : thaiCit (jsTrim s) = some (pin, t, y)) :
    parseCitation s =
      parseSection pin ((resolveThaiTitle (jsTrim t)).getD (jsTrim t))
        (parseIntDec y) (parseIntDec y - 543) CitType.statute := by
  unfold parseCitation
  dsimp only
  rw [h]

lemma pc_enBE (s pin t y : Str)
    (h1 : thaiCit (jsTrim s) = none)
    (h2 : englishBE (jsTrim s) = some (pin, t, y)) :
    parseCitation s =
      parseSection pin t (parseIntDec y) (parseIntDec y - 543) CitType.statute := by
  unfold parseCitation
  dsimp only
  rw [h1, h2]

lemma pc_trBE (s pin t y : Str)
    (h1 : thaiCit (jsTrim s) = none)
    (h2 : englishBE (jsTrim s) = none)
    (h3 : trailingBE (jsTrim s) = some (t, y, pin)) :
    parseCitation s =
      parseSection pin t (parseIntDec y) (parseIntDec y - 543) CitType.statute := by
  unfold parseCitation
  dsimp only
  rw [h1, h2, h3]

lemma pc_short (s pin t y : Str)
    (h1 : thaiCit (jsTrim s) = none)
    (h2 : englishBE (jsTrim s) = none)
    (h3 : trailingBE (jsTrim s) = none)
    (h4 : shortCit (jsTrim s) = some (pin, t, y)) :
    parseCitation s =
      parseSection pin ((resolveAbbreviation (jsTrim t)).getD (jsTrim t))
        (if parseIntDec y > 2400 then parseIntDec y else parseIntDec y + 543)
        (if parseIntDec y > 2400 then parseIntDec y - 543 else parseIntDec y)
        CitType.statute := by
  unfold parseCitation
  dsimp only
  rw [h1, h2, h3, h4]

lemma pc_id (s idStr pin : Str)
    (h1 : thaiCit (jsTrim s) = none)
    (h2 : englishBE (jsTrim s) = none)
    (h3 : trailingBE (jsTrim s) = none)
    (h4 : shortCit (jsTrim s) = none)
    (h5 : idBased (jsTrim s) = some (idStr, pin)) :
    parseCitation s =
      { valid := true, type := CitType.statute,
        title := some (toLowerStr idStr), «section» := some pin } := by
  unfold parseCitation
  dsimp only
  rw [h1, h2, h3, h4, h5]

lemma pc_enCE (s pin t y : Str)
    (h1 : thaiCit (jsTrim s) = none)
    (h2 : englishBE (jsTrim s) = none)
    (h3 : trailingBE (jsTrim s) = none)
    (h4 : shortCit (jsTrim s) = none)
    (h5 : idBased (jsTrim s) = none)
    (h6 : englishCE (jsTrim s) = some (pin, t, y)) :
    parseCitation s =
      parseSection pin t
        (if parseIntDec y > 2400 then parseIntDec y else parseIntDec y + 543)
        (if parseIntDec y > 2400 then parseIntDec y - 543 else parseIntDec y)
        CitType.statute := by
  unfold parseCitation
  dsimp only
  rw [h1, h2, h3, h4, h5, h6]

lemma pc_trCE (s pin t y : Str)
    (h1 : thaiCit (jsTrim s) = none)
    (h2 : englishBE (jsTrim s) = none)
    (h3 : trailingBE (jsTrim s) = none)
    (h4 : shortCit (jsTrim s) = none)
    (h5 : idBased (jsTrim s) = none)
    (h6 : englishCE (jsTrim s) = none)
    (h7 : trailingCE (jsTrim s) = some (t, y, pin)) :
    parseCitation s =
      parseSection pin t
        (if parseIntDec y > 2400 then parseIntDec y else parseIntDec y + 543)
        (if parseIntDec y > 2400 then parseIntDec y - 543 else parseIntDec y)
        CitType.statute := by
  unfold parseCitation
  dsimp only
  rw [h1, h2, h3, h4, h5, h6, h7]

lemma pc_fail (s : Str)
    (h1 : thaiCit (jsTrim s) = none)
    (h2 : englishBE (jsTrim s) = none)
    (h3 : trailingBE (jsTrim s) = none)
    (h4 : shortCit (jsTrim s) = none)
    (h5 : idBased (jsTrim s) = none)
    (h6 : englishCE (jsTrim s) = none)
    (h7 : trailingCE (jsTrim s) = none) :
    parseCitation s =
      { valid := false, type := CitType.unknown,
        error := some (str "Could not parse Thai citation: \"" ++ jsTrim s ++ ['"']) } := by
  unfold parseCitation
  dsimp only
  rw [h1, h2, h3, h4, h5, h6, h7]

/-- The decomposition the pinpoint sub-grammar induces on a fragment:
the groups of SECTION_REF when it matches, otherwise the whole fragment
as section with no subsection and no paragraph. -/
def decompTriple (frag : Str) : Option Str × Option Str × Option Str :=
  match matchSectionRef frag with
  | some (a, b, c) => (some a, b, c)
  | none => (some frag, none, none)

lemma parseSection_decomp (pin t : Str) (b c : Int) (ty : CitType) :
    (parseSection pin t b c ty).«section» = (decompTriple pin).1 ∧
    (parseSection pin t b c ty).subsection = (decompTriple pin).2.1 ∧
    (parseSection pin t b c ty).paragraph = (decompTriple pin).2.2 := by
  unfold parseSection decompTriple
  cases h : matchSectionRef pin with
  | none => simp
  | some v =>
    obtain ⟨a, b', c'⟩ := v
    simp

/-- The pinpoint fragment captured by the first matching grammar, for
the grammars that run the pinpoint sub-grammar (every grammar except the
bare-identifier one). -/
def pinFragment (s : Str) : Option Str :=
  let t := jsTrim s
  match thaiCit t with
  | some (pin, _, _) => some pin
  | none =>
  match englishBE t with
  | some (pin, _, _) => some pin
  | none =>
  match trailingBE t with
  | some (_, _, pin) => some pin
  | none =>
  match shortCit t with
  | some (pin, _, _) => some pin
  | none =>
  match idBased t with
  | some _ => none
  | none =>
  match englishCE t with
  | some (pin, _, _) => some pin
  | none =>
  match trailingCE t with
  | some (_, _, pin) => some pin
  | none => none

/-- The pinpoint fragment captured by the bare-identifier grammar when
it is the first grammar to match. -/
def idFragment (s : Str) : Option Str :=
  let t := jsTrim s
  match thaiCit t with
  | some _ => none
  | none =>
  match englishBE t with
  | some _ => none
  | none =>
  match trailingBE t with
  | some _ => none
  | none =>
  match shortCit t with
  | some _ => none
  | none =>
  match idBased t with
  | some (_, pin) => some pin
  | none => none

/-- C1 counterexample: on the bare-identifier citation
"pdpa-be2562, s. 3(1)" the parser succeeds but stores the whole
fragment "3(1)" as section and no subsection, although the pinpoint
sub-grammar decomposes "3(1)" into section "3" and subsection "1". -/
theorem c1_counterexample :
    (parseCitation (str "pdpa-be2562, s. 3(1)")).valid = true ∧
    (parseCitation (str "pdpa-be2562, s. 3(1)")).«section» = some (str "3(1)") ∧
    (parseCitation (str "pdpa-be2562, s. 3(1)")).subsection = none ∧
    matchSectionRef (str "3(1)") = some (str "3", some (str "1"), none) := by
  decide

/-- C1 amended: every grammar except the bare-identifier form feeds its
pinpoint fragment through the fixed sub-grammar, falling back to the
whole fragment as section (still valid, no error) when the sub-grammar
rejects it; the bare-identifier form instead stores the whole fragment
as section without decomposing it. -/
theorem c1_amended (s : Str) :
    (∀ frag, pinFragment s = some frag →
      (parseCitation s).valid = true ∧
      (parseCitation s).«section» = (decompTriple frag).1 ∧
      (parseCitation s).subsection = (decompTriple frag).2.1 ∧
      (parseCitation s).paragraph = (decompTriple frag).2.2) ∧
    (∀ frag, idFragment s = some frag →
      (parseCitation s).valid = true ∧
      (parseCitation s).«section» = some frag ∧
      (parseCitation s).subsection = none ∧
      (parseCitation s).paragraph = none) := by
  constructor
  · intro frag h
    unfold pinFragment at h
    dsimp only at h
    rcases h1 : thaiCit (jsTrim s) with _ | ⟨pin, t, y⟩
    · rw [h1] at h
      rcases h2 : englishBE (jsTrim s) with _ | ⟨pin, t, y⟩
      · rw [h2] at h
        rcases h3 : trailingBE (jsTrim s) with _ | ⟨t, y, pin⟩
        · rw [h3] at h
          rcases h4 : shortCit (jsTrim s) with _ | ⟨pin, t, y⟩
          · rw [h4] at h
            rcases h5 : idBased (jsTrim s) with _ | ⟨idStr, pin⟩
            · rw [h5] at h
              rcases h6 : englishCE (jsTrim s) with _ | ⟨pin, t, y⟩
              · rw [h6] at h
                rcases h7 : trailingCE (jsTrim s) with _ | ⟨t, y, pin⟩
                · rw [h7] at h
                  exact absurd h (by simp)
                · rw [h7] at h
                  dsimp only at h
                  injection h with hfrag
                  subst hfrag
                  rw [pc_trCE s pin t y h1 h2 h3 h4 h5 h6 h7]
                  exact ⟨parseSection_valid _ _ _ _ _, parseSection_decomp _ _ _ _ _⟩
              · rw [h6] at h
                dsimp only at h
                injection h with hfrag
                subst hfrag
                rw [pc_enCE s pin t y h1 h2 h3 h4 h5 h6]
                exact ⟨parseSection_valid _ _ _ _ _, parseSection_decomp _ _ _ _ _⟩
            · rw [h5] at h
              dsimp only at h
              exact absurd h (by simp)
          · rw [h4] at h
            dsimp only at h
            injection h with hfrag
            subst hfrag
            rw [pc_short s pin t y h1 h2 h3 h4]
            exact ⟨parseSection_valid _ _ _ _ _, parseSection_decomp _ _ _ _ _⟩
        · rw [h3] at h
          dsimp only at h
          injection h with hfrag
          subst hfrag
          rw [pc_trBE s pin t y h1 h2 h3]
          exact ⟨parseSection_valid _ _ _ _ _, parseSection_decomp _ _ _ _ _⟩
      · rw [h2] at h
        dsimp only at h
        injection h with hfrag
        subst hfrag
        rw [pc_enBE s pin t y h1 h2]
        exact ⟨parseSection_valid _ _ _ _ _, parseSection_decomp _ _ _ _ _⟩
    · rw [h1] at h
      dsimp only at h
      injection h with hfrag
      subst hfrag
      rw [pc_thai s pin t y h1]
      exact ⟨parseSection_valid _ _ _ _ _, parseSection_decomp _ _ _ _ _⟩
  · intro frag h
    unfold idFragment at h
    dsimp only at h
    rcases h1 : thaiCit (jsTrim s) with _ | v0
    · rw [h1] at h
      rcases h2 : englishBE (jsTrim s) with _ | v1
      · rw [h2] at h
        rcases h3 : trailingBE (jsTrim s) with _ | v2
        · rw [h3] at h
          rcases h4 : shortCit (jsTrim s) with _ | v3
          · rw [h4] at h
            rcases h5 : idBased (jsTrim s) with _ | ⟨idStr, pin⟩
            · rw [h5] at h
              exact absurd h (by simp)
            · rw [h5] at h
              dsimp only at h
              injection h with hfrag
              subst hfrag
              rw [pc_id s idStr pin h1 h2 h3 h4 h5]
              exact ⟨rfl, rfl, rfl, rfl⟩
          · rw [h4] at h
            exact absurd h (by simp)
        · rw [h3] at h
          exact absurd h (by simp)
      · rw [h2] at h
        exact absurd h (by simp)
    · rw [h1] at h
      exact absurd h (by simp)

/-- C1 amended witness: a decomposing grammar assigns subsection "1"
from the fragment "3(1)". -/
theorem c1_amended_witness :
    (parseCitation (str "Section 3(1), Personal Data Protection Act B.E. 2562")).subsection =
      (decompTriple (str "3(1)")).2.1 :=
  ((c1_amended (str "Section 3(1), Personal Data Protection Act B.E. 2562")).1
    (str "3(1)") (by decide)).2.2.1

/-- The year captured by the first matching grammar when that grammar is
one whose 4-digit year is ambiguous between the two epochs (the short
form and the two bare-year forms). -/
def ambiguousYear (s : Str) : Option Int :=
  let t := jsTrim s
  match thaiCit t with
  | some _ => none
  | none =>
  match englishBE t with
  | some _ => none
  | none =>
  match trailingBE t with
  | some _ => none
  | none =>
  match shortCit t with
  | some (_, _, y) => some (parseIntDec y)
  | none =>
  match idBased t with
  | some _ => none
  | none =>
  match englishCE t with
  | some (_, _, y) => some (parseIntDec y)
  | none =>
  match trailingCE t with
  | some (_, y, _) => some (parseIntDec y)
  | none => none

lemma parseSection_years_of_threshold (pin t : Str) (y : Int) (ty : CitType) :
    ((y > 2400 →
      (parseSection pin t (if y > 2400 then y else y + 543)
        (if y > 2400 then y - 543 else y) ty).be_year = some y ∧
      (parseSection pin t (if y > 2400 then y else y + 543)
        (if y > 2400 then y - 543 else y) ty).ce_year = some (y - 543)) ∧
     (¬ y > 2400 →
      (parseSection pin t (if y > 2400 then y else y + 543)
        (if y > 2400 then y - 543 else y) ty).ce_year = some y ∧
      (parseSection pin t (if y > 2400 then y else y + 543)
        (if y > 2400 then y - 543 else y) ty).be_year = some (y + 543))) := by
  constructor
  · intro hy
    rw [if_pos hy, if_pos hy]
    exact ⟨parseSection_be _ _ _ _ _, parseSection_ce _ _ _ _ _⟩
  · intro hy
    rw [if_neg hy, if_neg hy]
    exact ⟨parseSection_ce _ _ _ _ _, parseSection_be _ _ _ _ _⟩

/-- C5: whenever the first matching grammar carries an epoch-ambiguous
4-digit year y, the parser treats y as local-epoch when y > 2400
(be = y, ce = y - 543) and as western otherwise (ce = y, be = y + 543);
and concretely "s. 3, PDPA 2019" parses to section 3 of the expanded
Personal Data Protection Act with ce 2019 and be 2562. -/
theorem c5_ambiguous_year (s : Str) (y : Int) :
    (ambiguousYear s = some y →
      ((y > 2400 → (parseCitation s).be_year = some y ∧
                   (parseCitation s).ce_year = some (y - 543)) ∧
       (¬ y > 2400 → (parseCitation s).ce_year = some y ∧
                     (parseCitation s).be_year = some (y + 543)))) ∧
    parseCitation (str "s. 3, PDPA 2019") =
      { valid := true, type := CitType.statute,
        title := some (str "Personal Data Protection Act"),
        be_year := some 2562, ce_year := some 2019,
        «section» := some (str "3") } := by
  refine ⟨?_, by decide⟩
  intro h
  unfold ambiguousYear at h
  dsimp only at h
  rcases h1 : thaiCit (jsTrim s) with _ | v1
  · rw [h1] at h
    rcases h2 : englishBE (jsTrim s) with _ | v2
    · rw [h2] at h
      rcases h3 : trailingBE (jsTrim s) with _ | v3
      · rw [h3] at h
        rcases h4 : shortCit (jsTrim s) with _ | ⟨pin, t, yc⟩
        · rw [h4] at h
          rcases h5 : idBased (jsTrim s) with _ | v5
          · rw [h5] at h
            rcases h6 : englishCE (jsTrim s) with _ | ⟨pin, t, yc⟩
            · rw [h6] at h
              rcases h7 : trailingCE (jsTrim s) with _ | ⟨t, yc, pin⟩
              · rw [h7] at h
                exact absurd h (by simp)
              · rw [h7] at h
                dsimp only at h
                injection h with hy
                subst hy
                rw [pc_trCE s pin t yc h1 h2 h3 h4 h5 h6 h7]
                exact parseSection_years_of_threshold _ _ _ _
            · rw [h6] at h
              dsimp only at h
              injection h with hy
              subst hy
              rw [pc_enCE s pin t yc h1 h2 h3 h4 h5 h6]
              exact parseSection_years_of_threshold _ _ _ _
          · rw [h5] at h
            dsimp only at h
            exact absurd h (by simp)
        · rw [h4] at h
          dsimp only at h
          injection h with hy
          subst hy
          rw [pc_short s pin t yc h1 h2 h3 h4]
          exact parseSection_years_of_threshold _ _ _ _
      · rw [h3] at h
        dsimp only at h
        exact absurd h (by simp)
    · rw [h2] at h
      dsimp only at h
      exact absurd h (by simp)
  · rw [h1] at h
    dsimp only at h
    exact absurd h (by simp)

/-- C5 witness: the short form with the western-epoch year 2019. -/
theorem c5_ambiguous_year_witness :
    (parseCitation (str "s. 3, PDPA 2019")).ce_year = some 2019 ∧
    (parseCitation (str "s. 3, PDPA 2019")).be_year = some (2019 + 543) :=
  ((c5_ambiguous_year (str "s. 3, PDPA 2019") 2019).1 (by decide)).2 (by decide)


/-
Soundness of the pinpoint munchers: captured fragments decompose the
input and consist only of pinpoint characters.
-/

/-- Characters that can occur in a pinpoint capture. -/
def pinChar (c : Char) : Bool := isDigitCh c || c = '/' || c = '(' || c = ')'

lemma munchDigits1_sound (s d r : Str) (h : munchDigits1 s = some (d, r)) :
    s = d ++ r ∧ d ≠ [] ∧ ∀ c ∈ d, isDigitCh c = true := by
  unfold munchDigits1 at h
  rcases htw : s.takeWhile isDigitCh with _ | ⟨c0, d0⟩
  · rw [htw] at h
    cases h
  · rw [htw] at h
    dsimp only at h
    injection h with h'
    obtain ⟨hd, hr⟩ := Prod.mk.inj h'
    subst hd
    subst hr
    refine ⟨?_, by simp, ?_⟩
    · rw [← htw]
      exact (List.takeWhile_append_dropWhile ..).symm
    · intro c hc
      rw [← htw] at hc
      exact List.mem_takeWhile_imp hc

lemma munchGroupsGo_sound (fuel : Nat) :
    ∀ s g r, munchGroupsGo fuel s = (g, r) →
      s = g ++ r ∧ ∀ c ∈ g, pinChar c = true := by
  induction fuel with
  | zero =>
    intro s g r h
    unfold munchGroupsGo at h
    cases h
    simp
  | succ fuel ih =>
    intro s g r h
    unfold munchGroupsGo at h
    dsimp only at h
    split at h
    · rename_i r0
      split at h
      · cases h
        simp
      · split at h
        · rename_i r3 hdw
          rcases hmg : munchGroupsGo fuel r3 with ⟨g1, g2⟩
          rw [hmg] at h
          cases h
          obtain ⟨hrec1, hrec2⟩ := ih r3 g1 g2 hmg
          have hr0 : r0 = r0.takeWhile isDigitCh ++ ')' :: r3 := by
            conv_lhs => rw [← List.takeWhile_append_dropWhile (p := isDigitCh) (l := r0)]
            rw [hdw]
          constructor
          · rw [hrec1] at hr0
            conv_lhs => rw [hr0]
            simp
          · intro c hc
            simp only [List.mem_cons, List.mem_append] at hc
            rcases hc with hc | hc
            · subst hc
              decide
            rcases hc with hc | hc
            · have := List.mem_takeWhile_imp hc
              simp [pinChar, this]
            rcases hc with hc | hc
            · subst hc
              decide
            · exact hrec2 c hc
        · cases h
          simp
    · cases h
      simp

/-
Structured characterisation of pinpoint captures.
-/

/-- The shape of a string matched by the pinpoint pattern:
digits, an optional slash continuation, and parenthesised digit groups. -/
structure PinParts where
  d1 : Str
  slash : Option Str
  groups : List Str

/-- Rendering of the parenthesised digit groups. -/
def renderGroups (gl : List Str) : Str :=
  (gl.map (fun g => '(' :: g ++ [')'])).join

/-- The string a `PinParts` denotes. -/
def PinParts.render (pp : PinParts) : Str :=
  pp.d1 ++
  (match pp.slash with
   | some d2 => '/' :: d2
   | none => []) ++
  renderGroups pp.groups

/-- Well-formedness: all digit runs are nonempty digit strings. -/
def PinParts.WF (pp : PinParts) : Prop :=
  pp.d1 ≠ [] ∧ (∀ c ∈ pp.d1, isDigitCh c = true) ∧
  (∀ d2, pp.slash = some d2 → d2 ≠ [] ∧ ∀ c ∈ d2, isDigitCh c = true) ∧
  (∀ g ∈ pp.groups, g ≠ [] ∧ ∀ c ∈ g, isDigitCh c = true)

lemma takeWhile_append_not (p : Char → Bool) (A B : Str)
    (hA : ∀ c ∈ A, p c = true) (hB : ∀ c, B.head? = some c → p c = false) :
    (A ++ B).takeWhile p = A := by
  induction A with
  | nil =>
    cases B with
    | nil => rfl
    | cons b bs =>
      simp only [List.nil_append, List.takeWhile]
      rw [hB b rfl]
  | cons a as ih =>
    simp only [List.cons_append, List.takeWhile]
    rw [hA a (by simp)]
    simp only [List.cons.injEq, true_and]
    exact ih (fun c hc => hA c (by simp [hc]))

lemma dropWhile_append_not (p : Char → Bool) (A B : Str)
    (hA : ∀ c ∈ A, p c = true) (hB : ∀ c, B.head? = some c → p c = false) :
    (A ++ B).dropWhile p = B := by
  induction A with
  | nil =>
    cases B with
    | nil => rfl
    | cons b bs =>
      simp only [List.nil_append, List.dropWhile]
      rw [hB b rfl]
  | cons a as ih =>
    simp only [List.cons_append, List.dropWhile]
    rw [hA a (by simp)]
    exact ih (fun c hc => hA c (by simp [hc]))

lemma munchGroupsGo_parts (fuel : Nat) :
    ∀ s g r, munchGroupsGo fuel s = (g, r) →
      ∃ gl, g = renderGroups gl ∧ s = g ++ r ∧
        ∀ x ∈ gl, x ≠ [] ∧ ∀ c ∈ x, isDigitCh c = true := by
  induction fuel with
  | zero =>
    intro s g r h
    unfold munchGroupsGo at h
    cases h
    exact ⟨[], rfl, by simp, by simp⟩
  | succ fuel ih =>
    intro s g r h
    unfold munchGroupsGo at h
    dsimp only at h
    split at h
    · rename_i r0
      split at h
      · cases h
        exact ⟨[], rfl, by simp, by simp⟩
      · rename_i hjunk htwF
        split at h
        · rename_i r3 hdw
          rcases hmg : munchGroupsGo fuel r3 with ⟨g1, g2⟩
          rw [hmg] at h
          cases h
          obtain ⟨gl, hgl1, hgl2, hgl3⟩ := ih r3 g1 g2 hmg
          have hr0 : r0 = r0.takeWhile isDigitCh ++ ')' :: r3 := by
            conv_lhs => rw [← List.takeWhile_append_dropWhile (p := isDigitCh) (l := r0)]
            rw [hdw]
          refine ⟨r0.takeWhile isDigitCh :: gl, ?_, ?_, ?_⟩
          · rw [hgl1]
            simp [renderGroups]
          · rw [hgl2] at hr0
            conv_lhs => rw [hr0]
            simp
          · intro x hx
            rcases List.mem_cons.mp hx with hx | hx
            · subst hx
              constructor
              · intro he
                exact htwF he
              · intro c hc
                exact List.mem_takeWhile_imp hc
            · exact hgl3 x hx
        · cases h
          exact ⟨[], rfl, by simp, by simp⟩
    · cases h
      exact ⟨[], rfl, by simp, by simp⟩

lemma renderGroups_cons (g : Str) (gl : List Str) :
    renderGroups (g :: gl) = '(' :: (g ++ ')' :: renderGroups gl) := by
  simp [renderGroups]

lemma length_le_renderGroups (gl : List Str) :
    gl.length ≤ (renderGroups gl).length := by
  induction gl with
  | nil => simp [renderGroups]
  | cons g gl ih =>
    rw [renderGroups_cons]
    simp only [List.length_cons, List.length_append]
    omega

lemma munchGroupsGo_complete :
    ∀ fuel (gl : List Str) (r2 : Str),
      (∀ g ∈ gl, g ≠ [] ∧ ∀ c ∈ g, isDigitCh c = true) →
      (∀ c, r2.head? = some c → c ≠ '(') →
      gl.length ≤ fuel →
      munchGroupsGo fuel (renderGroups gl ++ r2) = (renderGroups gl, r2) := by
  intro fuel
  induction fuel with
  | zero =>
    intro gl r2 hwf hh hlen
    have hgl : gl = [] := List.length_eq_zero.mp (Nat.le_zero.mp hlen)
    subst hgl
    simp [munchGroupsGo, renderGroups]
  | succ fuel ih =>
    intro gl r2 hwf hh hlen
    cases gl with
    | nil =>
      unfold munchGroupsGo
      dsimp only
      have hr : renderGroups [] ++ r2 = r2 := by simp [renderGroups]
      rw [hr]
      cases r2 with
      | nil => simp [renderGroups]
      | cons c cs =>
        split
        · rename_i r hc
          exact absurd (List.cons.inj hc).1 (hh c rfl)
        · simp [renderGroups]
    | cons g gl' =>
      obtain ⟨hgne, hgdig⟩ := hwf g (by simp)
      have hs : renderGroups (g :: gl') ++ r2 =
          '(' :: (g ++ ')' :: (renderGroups gl' ++ r2)) := by
        rw [renderGroups_cons]
        simp
      rw [hs]
      unfold munchGroupsGo
      dsimp only
      split
      · rename_i r hr
        have hr' : g ++ ')' :: (renderGroups gl' ++ r2) = r := (List.cons.inj hr).2
        subst hr'
        have htw : (g ++ ')' :: (renderGroups gl' ++ r2)).takeWhile isDigitCh = g :=
          takeWhile_append_not _ _ _ hgdig (by intro c hc; cases hc; decide)
        have hdw : (g ++ ')' :: (renderGroups gl' ++ r2)).dropWhile isDigitCh =
            ')' :: (renderGroups gl' ++ r2) :=
          dropWhile_append_not _ _ _ hgdig (by intro c hc; cases hc; decide)
        rcases hgc : g with _ | ⟨gc, gd⟩
        · exact absurd hgc hgne
        · subst hgc
          rw [htw, hdw]
          dsimp only
          split
          · rename_i r3 hr3
            have hr3' : renderGroups gl' ++ r2 = r3 := (List.cons.inj hr3).2
            subst hr3'
            rw [ih gl' r2 (fun x hx => hwf x (by simp [hx])) hh (by simp at hlen; omega)]
            rw [renderGroups_cons]
          · rename_i hnc
            exact absurd rfl (hnc (renderGroups gl' ++ r2))
      · rename_i hnc
        exact absurd rfl (hnc (g ++ ')' :: (renderGroups gl' ++ r2)))

lemma munchGroups_eq (s : Str) : munchGroups s = munchGroupsGo s.length s := rfl

lemma munchPin_parts (s t r : Str) (h : munchPin s = some (t, r)) :
    ∃ pp : PinParts, pp.WF ∧ t = pp.render ∧ s = t ++ r := by
  unfold munchPin at h
  rcases hd1 : munchDigits1 s with _ | ⟨d1, r1⟩
  · rw [hd1] at h
    cases h
  · rw [hd1] at h
    dsimp only at h
    obtain ⟨hs1, hne1, hdig1⟩ := munchDigits1_sound s d1 r1 hd1
    split at h
    · rename_i r1t
      split at h
      · rename_i d2 r2t hd2
        obtain ⟨hs2, hne2, hdig2⟩ := munchDigits1_sound r1t d2 r2t hd2
        rw [munchGroups_eq] at h
        dsimp only at h
        rcases hmg : munchGroupsGo r2t.length r2t with ⟨g1, g2⟩
        rw [hmg] at h
        obtain ⟨gl, hgl1, hgl2, hgl3⟩ := munchGroupsGo_parts _ _ _ _ hmg
        cases h
        refine ⟨⟨d1, some d2, gl⟩, ⟨hne1, hdig1, ?_, hgl3⟩, ?_, ?_⟩
        · intro x hx
          cases hx
          exact ⟨hne2, hdig2⟩
        · simp only [PinParts.render]
          rw [hgl1]
        · rw [hs1, hs2, hgl2, hgl1]
          simp
      · rw [munchGroups_eq] at h
        dsimp only at h
        rcases hmg : munchGroupsGo ('/' :: r1t).length ('/' :: r1t) with ⟨g1, g2⟩
        rw [hmg] at h
        obtain ⟨gl, hgl1, hgl2, hgl3⟩ := munchGroupsGo_parts _ _ _ _ hmg
        cases h
        refine ⟨⟨d1, none, gl⟩, ⟨hne1, hdig1, by simp, hgl3⟩, ?_, ?_⟩
        · simp only [PinParts.render]
          rw [hgl1]
        · rw [hs1, hgl2, hgl1]
          simp
    · rw [munchGroups_eq] at h
      dsimp only at h
      rcases hmg : munchGroupsGo r1.length r1 with ⟨g1, g2⟩
      rw [hmg] at h
      obtain ⟨gl, hgl1, hgl2, hgl3⟩ := munchGroupsGo_parts _ _ _ _ hmg
      cases h
      refine ⟨⟨d1, none, gl⟩, ⟨hne1, hdig1, by simp, hgl3⟩, ?_, ?_⟩
      · simp only [PinParts.render]
        rw [hgl1]
      · rw [hs1, hgl2, hgl1]
        simp

lemma refTryG2_sound (t g2 t2 : Str) (h : refTryG2 t = some (g2, t2)) :
    t = '(' :: (g2 ++ ')' :: t2) ∧ g2 ≠ [] ∧ ∀ c ∈ g2, isDigitCh c = true := by
  unfold refTryG2 at h
  split at h
  · rename_i t1
    split at h
    · rename_i d tq hd
      obtain ⟨h1, h2, h3⟩ := munchDigits1_sound t1 d (')' :: tq) hd
      cases h
      rw [h1]
      exact ⟨rfl, h2, h3⟩
    · cases h
  · cases h

lemma refTryG3_sound (t g3 t3 : Str) (h : refTryG3 t = some (g3, t3)) :
    ∃ c, g3 = [c] ∧ isLowerAZ c = true ∧ t = '(' :: c :: ')' :: t3 := by
  unfold refTryG3 at h
  split at h
  · rename_i c t1
    split at h
    · rename_i hc
      cases h
      exact ⟨c, rfl, hc, rfl⟩
    · cases h
  · cases h

lemma refSecSplit_snd (d1 r1 : Str) :
    ∃ pre, r1 = pre ++ (refSecSplit d1 r1).2 := by
  unfold refSecSplit
  split
  · rename_i r1t
    split
    · rename_i d2 r2t hd
      obtain ⟨h1, _, _⟩ := munchDigits1_sound r1t d2 r2t hd
      refine ⟨'/' :: d2, ?_⟩
      rw [h1]
      simp
    · exact ⟨[], by simp⟩
  · exact ⟨[], by simp⟩

lemma matchSectionRef_para_lower (s secv : Str) (sub : Option Str) (p : Str)
    (h : matchSectionRef s = some (secv, sub, some p)) :
    ∃ c, isLowerAZ c = true ∧ c ∈ s := by
  unfold matchSectionRef at h
  rcases hd1 : munchDigits1 s with _ | ⟨d1, r1⟩
  · rw [hd1] at h
    cases h
  · rw [hd1] at h
    dsimp only at h
    obtain ⟨hs1, _, _⟩ := munchDigits1_sound s d1 r1 hd1
    obtain ⟨pre, hpre⟩ := refSecSplit_snd d1 r1
    have hmemX : ∀ c, c ∈ (refSecSplit d1 r1).2 → c ∈ s := by
      intro c hc
      rw [hs1, hpre]
      simp [hc]
    split at h
    · rename_i a ha
      split at ha
      · rename_i g2 t2 hg2
        obtain ⟨hX, _, _⟩ := refTryG2_sound _ _ _ hg2
        have hmemT2 : ∀ c, c ∈ t2 → c ∈ s := by
          intro c hc
          apply hmemX
          rw [hX]
          simp [hc]
        split at ha
        · rename_i b hb
          split at hb
          · rename_i g3 t3 hg3
            obtain ⟨c, hc1, hc2, hc3⟩ := refTryG3_sound _ _ _ hg3
            split at hb
            · cases hb
              cases ha
              cases h
              exact ⟨c, hc2, hmemT2 c (by rw [hc3]; simp)⟩
            · cases hb
          · cases hb
        · split at ha
          · cases ha
            cases h
          · cases ha
      · cases ha
    · split at h
      · rename_i b hb
        split at hb
        · rename_i g3 t3 hg3
          obtain ⟨c, hc1, hc2, hc3⟩ := refTryG3_sound _ _ _ hg3
          split at hb
          · cases hb
            cases h
            exact ⟨c, hc2, hmemX c (by rw [hc3]; simp)⟩
          · cases hb
        · cases hb
      · split at h
        · cases h
        · cases h

/-
Inversion lemmas for the matcher combinators.
-/

lemma firstDown_ex {α : Type} (f : Nat → Option α) :
    ∀ n a, firstDown f n = some a → ∃ j, j ≤ n ∧ f j = some a := by
  intro n
  induction n with
  | zero =>
    intro a h
    exact ⟨0, Nat.le_refl 0, h⟩
  | succ n ih =>
    intro a h
    unfold firstDown at h
    split at h
    · rename_i heq
      cases h
      exact ⟨n + 1, Nat.le_refl _, heq⟩
    · obtain ⟨j, hj, hf⟩ := ih a h
      exact ⟨j, Nat.le_succ_of_le hj, hf⟩

lemma firstDown1_ex {α : Type} (f : Nat → Option α) :
    ∀ n a, firstDown1 f n = some a → ∃ j, 1 ≤ j ∧ j ≤ n ∧ f j = some a := by
  intro n
  induction n with
  | zero =>
    intro a h
    cases h
  | succ n ih =>
    intro a h
    unfold firstDown1 at h
    split at h
    · rename_i heq
      cases h
      exact ⟨n + 1, by omega, Nat.le_refl _, heq⟩
    · obtain ⟨j, hj1, hj2, hf⟩ := ih a h
      exact ⟨j, hj1, Nat.le_succ_of_le hj2, hf⟩

lemma wsPlusThen_sound {α : Type} (s : Str) (k : Str → Option α) (a : α)
    (h : wsPlusThen s k = some a) :
    ∃ j, 1 ≤ j ∧ j ≤ (s.takeWhile isJsWs).length ∧ k (s.drop j) = some a := by
  exact firstDown1_ex _ _ _ h

lemma wsStarThen_sound {α : Type} (s : Str) (k : Str → Option α) (a : α)
    (h : wsStarThen s k = some a) :
    ∃ j, j ≤ (s.takeWhile isJsWs).length ∧ k (s.drop j) = some a := by
  exact firstDown_ex _ _ _ h

lemma sepCommaWsThen_ex {α : Type} (s : Str) (k : Str → Option α) (a : α)
    (h : sepCommaWsThen s k = some a) : ∃ r', k r' = some a := by
  obtain ⟨i, _, hf⟩ := firstDown_ex _ _ _ h
  dsimp only at hf
  split at hf
  · rename_i b hb
    split at hb
    · rename_i r2
      obtain ⟨j, _, _, hk⟩ := wsPlusThen_sound _ _ _ hb
      cases hf
      exact ⟨_, hk⟩
    · cases hb
  · obtain ⟨j, _, _, hk⟩ := wsPlusThen_sound _ _ _ hf
    exact ⟨_, hk⟩

lemma sepCommaWsStarThen_ex {α : Type} (s : Str) (k : Str → Option α) (a : α)
    (h : sepCommaWsStarThen s k = some a) : ∃ r', k r' = some a := by
  obtain ⟨i, _, hf⟩ := firstDown_ex _ _ _ h
  dsimp only at hf
  split at hf
  · rename_i b hb
    split at hb
    · rename_i r2
      obtain ⟨j, _, hk⟩ := wsStarThen_sound _ _ _ hb
      cases hf
      exact ⟨_, hk⟩
    · cases hb
  · obtain ⟨j, _, hk⟩ := wsStarThen_sound _ _ _ hf
    exact ⟨_, hk⟩

lemma markerSThen_ex {α : Type} (s : Str) (k : Str → Option α) (a : α)
    (h : markerSThen s k = some a) : ∃ r', k r' = some a := by
  unfold markerSThen at h
  split at h
  · rename_i c r
    split at h
    · split at h
      · rename_i r2
        split at h
        · rename_i heq
          cases h
          exact ⟨_, heq⟩
        · exact ⟨_, h⟩
      · exact ⟨_, h⟩
    · cases h
  · cases h

lemma markerSectionThen_ex {α : Type} (s : Str) (k : Str → Option α) (a : α)
    (h : markerSectionThen s k = some a) : ∃ r', k r' = some a := by
  unfold markerSectionThen at h
  split at h
  · rename_i b hb
    split at hb
    · rename_i r heq
      cases h
      exact ⟨r, hb⟩
    · cases hb
  · exact markerSThen_ex _ _ _ h

lemma markerAnyThen_ex {α : Type} (s : Str) (k : Str → Option α) (a : α)
    (h : markerAnyThen s k = some a) : ∃ r', k r' = some a := by
  unfold markerAnyThen at h
  split at h
  · rename_i b hb
    split at hb
    · rename_i r heq
      cases h
      exact ⟨r, hb⟩
    · cases hb
  · split at h
    · rename_i b hb
      cases h
      exact markerSThen_ex _ _ _ hb
    · split at h
      · rename_i r heq
        exact ⟨r, h⟩
      · cases h

lemma beAfterB_ex {α : Type} (s2 : Str) (k : Str → Option α) (a : α)
    (h : beAfterB s2 k = some a) : ∃ r', k r' = some a := by
  unfold beAfterB at h
  split at h
  · split at h
    · split at h
      · split at h
        · rename_i heq
          cases h
          exact ⟨_, heq⟩
        · exact ⟨_, h⟩
      · exact ⟨_, h⟩
    · cases h
  · cases h

lemma beTokThen_ex {α : Type} (s : Str) (k : Str → Option α) (a : α)
    (h : beTokThen s k = some a) : ∃ r', k r' = some a := by
  unfold beTokThen at h
  split at h
  · rename_i b r
    split at h
    · split at h
      · rename_i r2
        split at h
        · rename_i heq
          cases h
          exact beAfterB_ex _ _ _ heq
        · exact beAfterB_ex _ _ _ h
      · exact beAfterB_ex _ _ _ h
    · cases h
  · cases h

lemma optParenYearThen_ex {α : Type} (s : Str) (k : Str → Option α) (a : α)
    (h : optParenYearThen s k = some a) : ∃ r', k r' = some a := by
  unfold optParenYearThen at h
  split at h
  · rename_i b hb
    obtain ⟨j, _, hk⟩ := wsStarThen_sound _ _ _ hb
    split at hk
    · rename_i r2
      split at hk
      · cases h
        exact ⟨_, hk⟩
      · cases hk
    · cases hk
  · exact ⟨_, h⟩

lemma lazyDotPlus_sound {α : Type} (tailF : Str → Option α) :
    ∀ s t a, lazyDotPlus tailF s = some (t, a) →
      s = t ++ (s.drop t.length) ∧ t ≠ [] ∧ (∀ c ∈ t, isDotCh c = true) ∧
      tailF (s.drop t.length) = some a := by
  intro s
  induction s with
  | nil =>
    intro t a h
    cases h
  | cons c r ih =>
    intro t a h
    unfold lazyDotPlus at h
    split at h
    · rename_i hc
      rcases heq : tailF r with _ | a0
      · rw [heq] at h
        dsimp only at h
        rcases hrec : lazyDotPlus tailF r with _ | pr
        · rw [hrec] at h
          cases h
        · rw [hrec] at h
          dsimp only at h
          obtain ⟨t2, a2⟩ := pr
          cases h
          obtain ⟨ih1, ih2, ih3, ih4⟩ := ih t2 a2 hrec
          refine ⟨?_, by simp, ?_, ?_⟩
          · simp only [List.length_cons, List.drop_succ_cons]
            rw [List.cons_append, ← ih1]
          · intro x hx
            rcases List.mem_cons.mp hx with rfl | hx
            · exact hc
            · exact ih3 x hx
          · simpa using ih4
      · rw [heq] at h
        dsimp only at h
        cases h
        refine ⟨by simp, by simp, ?_, by simpa using heq⟩
        intro x hx
        rcases List.mem_singleton.mp hx with rfl
        exact hc
    · cases h

lemma pinChar_not_lower (c : Char) (h : pinChar c = true) : isLowerAZ c = false := by
  by_contra hne
  have hlt : isLowerAZ c = true := by
    cases hh : isLowerAZ c
    · exact absurd hh hne
    · rfl
  simp only [isLowerAZ, Bool.and_eq_true, decide_eq_true_eq] at hlt
  simp only [pinChar, Bool.or_eq_true, decide_eq_true_eq] at h
  rcases h with ((h | h) | h) | h
  · simp only [isDigitCh, Bool.and_eq_true, decide_eq_true_eq] at h
    omega
  · subst h
    exact absurd hlt (by decide)
  · subst h
    exact absurd hlt (by decide)
  · subst h
    exact absurd hlt (by decide)

lemma renderGroups_chars (gl : List Str)
    (h : ∀ g ∈ gl, g ≠ [] ∧ ∀ c ∈ g, isDigitCh c = true) :
    ∀ c ∈ renderGroups gl, pinChar c = true := by
  induction gl with
  | nil => simp [renderGroups]
  | cons g gl ih =>
    intro c hc
    rw [renderGroups_cons] at hc
    rcases List.mem_cons.mp hc with rfl | hc
    · decide
    · simp only [List.mem_append] at hc
      rcases hc with hc | hc
      · simp [pinChar, (h g (by simp)).2 c hc]
      · rcases List.mem_cons.mp hc with rfl | hc
        · decide
        · exact ih (fun x hx => h x (by simp [hx])) c hc

lemma render_chars (pp : PinParts) (h : pp.WF) :
    ∀ c ∈ pp.render, pinChar c = true := by
  obtain ⟨hne, hd, hsl, hgr⟩ := h
  intro c hc
  unfold PinParts.render at hc
  simp only [List.mem_append] at hc
  rcases hc with (hc | hc) | hc
  · simp [pinChar, hd c hc]
  · rcases hslv : pp.slash with _ | d2
    · rw [hslv] at hc
      simp at hc
    · rw [hslv] at hc
      rcases List.mem_cons.mp hc with rfl | hc
      · decide
      · simp [pinChar, (hsl d2 hslv).2 c hc]
  · exact renderGroups_chars pp.groups hgr c hc

lemma pin_chars_of_munchPin (r2 pin r3 : Str) (h : munchPin r2 = some (pin, r3)) :
    ∀ c ∈ pin, pinChar c = true := by
  obtain ⟨pp, hwf, hrender, _⟩ := munchPin_parts _ _ _ h
  rw [hrender]
  exact render_chars pp hwf

lemma decompTriple_para_none (frag : Str)
    (hfrag : ∀ c ∈ frag, pinChar c = true) :
    (decompTriple frag).2.2 = none := by
  unfold decompTriple
  rcases hm : matchSectionRef frag with _ | ⟨secv, sub, para⟩
  · rfl
  · rcases para with _ | p
    · rfl
    · exfalso
      obtain ⟨c, hc1, hc2⟩ := matchSectionRef_para_lower frag secv sub p hm
      have hx := pinChar_not_lower c (hfrag c hc2)
      rw [hc1] at hx
      cases hx

/-
Every grammar's pinpoint capture is a munchPin capture.
-/

lemma thaiCit_pin (s pin t y : Str) (h : thaiCit s = some (pin, t, y)) :
    ∃ r2 r3, munchPin r2 = some (pin, r3) := by
  unfold thaiCit at h
  split at h
  · obtain ⟨j, _, _, hk⟩ := wsPlusThen_sound _ _ _ h
    split at hk
    · rename_i pin2 r3 hmp
      obtain ⟨j2, _, _, hk2⟩ := wsPlusThen_sound _ _ _ hk
      rcases hlz : lazyDotPlus thaiTail (r3.drop j2) with _ | ta
      · rw [hlz] at hk2
        cases hk2
      · rw [hlz] at hk2
        rw [Option.map_some'] at hk2
        injection hk2 with hk3
        obtain ⟨hpin, _⟩ := Prod.mk.inj hk3
        subst hpin
        exact ⟨_, _, hmp⟩
    · cases hk
  · cases h

lemma englishBE_pin (s pin t y : Str) (h : englishBE s = some (pin, t, y)) :
    ∃ r2 r3, munchPin r2 = some (pin, r3) := by
  unfold englishBE at h
  obtain ⟨r1, h1⟩ := markerSectionThen_ex _ _ _ h
  obtain ⟨j, _, _, hk⟩ := wsPlusThen_sound _ _ _ h1
  split at hk
  · rename_i pin2 r3 hmp
    obtain ⟨r4, hk2⟩ := sepCommaWsThen_ex _ _ _ hk
    rcases hlz : lazyDotPlus ebTail r4 with _ | ta
    · rw [hlz] at hk2
      cases hk2
    · rw [hlz] at hk2
      rw [Option.map_some'] at hk2
      injection hk2 with hk3
      obtain ⟨hpin, _⟩ := Prod.mk.inj hk3
      subst hpin
      exact ⟨_, _, hmp⟩
  · cases hk

lemma shortCit_pin (s pin t y : Str) (h : shortCit s = some (pin, t, y)) :
    ∃ r2 r3, munchPin r2 = some (pin, r3) := by
  unfold shortCit at h
  obtain ⟨r1, h1⟩ := markerSThen_ex _ _ _ h
  obtain ⟨j, _, _, hk⟩ := wsPlusThen_sound _ _ _ h1
  split at hk
  · rename_i pin2 r3 hmp
    obtain ⟨r4, hk2⟩ := sepCommaWsThen_ex _ _ _ hk
    rcases hlz : lazyDotPlus ceTail r4 with _ | ta
    · rw [hlz] at hk2
      cases hk2
    · rw [hlz] at hk2
      rw [Option.map_some'] at hk2
      injection hk2 with hk3
      obtain ⟨hpin, _⟩ := Prod.mk.inj hk3
      subst hpin
      exact ⟨_, _, hmp⟩
  · cases hk

lemma englishCE_pin (s pin t y : Str) (h : englishCE s = some (pin, t, y)) :
    ∃ r2 r3, munchPin r2 = some (pin, r3) := by
  unfold englishCE at h
  obtain ⟨r1, h1⟩ := markerSectionThen_ex _ _ _ h
  obtain ⟨j, _, _, hk⟩ := wsPlusThen_sound _ _ _ h1
  split at hk
  · rename_i pin2 r3 hmp
    obtain ⟨r4, hk2⟩ := sepCommaWsThen_ex _ _ _ hk
    rcases hlz : lazyDotPlus ceTail r4 with _ | ta
    · rw [hlz] at hk2
      cases hk2
    · rw [hlz] at hk2
      rw [Option.map_some'] at hk2
      injection hk2 with hk3
      obtain ⟨hpin, _⟩ := Prod.mk.inj hk3
      subst hpin
      exact ⟨_, _, hmp⟩
  · cases hk

lemma tbTail_pin (s y pin : Str) (h : tbTail s = some (y, pin)) :
    ∃ r2 r3, munchPin r2 = some (pin, r3) := by
  unfold tbTail at h
  obtain ⟨j1, _, _, h1⟩ := wsPlusThen_sound _ _ _ h
  obtain ⟨r2, h2⟩ := beTokThen_ex _ _ _ h1
  obtain ⟨j3, _, h3⟩ := wsStarThen_sound _ _ _ h2
  split at h3
  · rename_i y4 r4 h4
    obtain ⟨r5, h5⟩ := optParenYearThen_ex _ _ _ h3
    obtain ⟨r6, h6⟩ := sepCommaWsStarThen_ex _ _ _ h5
    obtain ⟨r7, h7⟩ := markerAnyThen_ex _ _ _ h6
    obtain ⟨j8, _, h8⟩ := wsStarThen_sound _ _ _ h7
    split at h8
    · rename_i pin2 r9 h9
      split at h8
      · cases h8
        exact ⟨_, _, h9⟩
      · cases h8
    · cases h8
  · cases h3

lemma trailingBE_pin (s t y pin : Str) (h : trailingBE s = some (t, y, pin)) :
    ∃ r2 r3, munchPin r2 = some (pin, r3) := by
  unfold trailingBE at h
  rcases hlz : lazyDotPlus tbTail s with _ | ta
  · rw [hlz] at h
    cases h
  · rw [hlz] at h
    rw [Option.map_some'] at h
    obtain ⟨t0, y0, p0⟩ := ta
    injection h with h'
    obtain ⟨ht, hyp⟩ := Prod.mk.inj h'
    obtain ⟨hy, hp⟩ := Prod.mk.inj hyp
    subst hy
    subst hp
    obtain ⟨_, _, _, h4⟩ := lazyDotPlus_sound tbTail s t0 (y0, p0) hlz
    exact tbTail_pin _ _ _ h4

lemma tcTail_pin (s y pin : Str) (h : tcTail s = some (y, pin)) :
    ∃ r2 r3, munchPin r2 = some (pin, r3) := by
  unfold tcTail at h
  obtain ⟨j1, _, _, h1⟩ := wsPlusThen_sound _ _ _ h
  split at h1
  · rename_i y4 r4 h4
    obtain ⟨r5, h5⟩ := sepCommaWsStarThen_ex _ _ _ h1
    obtain ⟨r6, h6⟩ := markerAnyThen_ex _ _ _ h5
    obtain ⟨j7, _, h7⟩ := wsStarThen_sound _ _ _ h6
    split at h7
    · rename_i pin2 r8 h8
      split at h7
      · cases h7
        exact ⟨_, _, h8⟩
      · cases h7
    · cases h7
  · cases h1

lemma trailingCE_pin (s t y pin : Str) (h : trailingCE s = some (t, y, pin)) :
    ∃ r2 r3, munchPin r2 = some (pin, r3) := by
  unfold trailingCE at h
  rcases hlz : lazyDotPlus tcTail s with _ | ta
  · rw [hlz] at h
    cases h
  · rw [hlz] at h
    rw [Option.map_some'] at h
    obtain ⟨t0, y0, p0⟩ := ta
    injection h with h'
    obtain ⟨ht, hyp⟩ := Prod.mk.inj h'
    obtain ⟨hy, hp⟩ := Prod.mk.inj hyp
    subst hy
    subst hp
    obtain ⟨_, _, _, h4⟩ := lazyDotPlus_sound tcTail s t0 (y0, p0) hlz
    exact tcTail_pin _ _ _ h4

/-- C10: no input ever produces a parse result with the paragraph field
set: every grammar's pinpoint capture consists of digits, parentheses
and slashes only, while the sub-grammar assigns a paragraph only from a
lower-case letter, and the bare-identifier branch never decomposes. -/
theorem c10_paragraph_never_set (s : Str) :
    (parseCitation s).paragraph = none := by
  rcases h1 : thaiCit (jsTrim s) with _ | ⟨pin, t, y⟩
  · rcases h2 : englishBE (jsTrim s) with _ | ⟨pin, t, y⟩
    · rcases h3 : trailingBE (jsTrim s) with _ | ⟨t, y, pin⟩
      · rcases h4 : shortCit (jsTrim s) with _ | ⟨pin, t, y⟩
        · rcases h5 : idBased (jsTrim s) with _ | ⟨idStr, pin⟩
          · rcases h6 : englishCE (jsTrim s) with _ | ⟨pin, t, y⟩
            · rcases h7 : trailingCE (jsTrim s) with _ | ⟨t, y, pin⟩
              · rw [pc_fail s h1 h2 h3 h4 h5 h6 h7]
              · rw [pc_trCE s pin t y h1 h2 h3 h4 h5 h6 h7,
                    (parseSection_decomp _ _ _ _ _).2.2]
                obtain ⟨r2, r3, hmp⟩ := trailingCE_pin _ _ _ _ h7
                exact decompTriple_para_none pin (pin_chars_of_munchPin _ _ _ hmp)
            · rw [pc_enCE s pin t y h1 h2 h3 h4 h5 h6,
                  (parseSection_decomp _ _ _ _ _).2.2]
              obtain ⟨r2, r3, hmp⟩ := englishCE_pin _ _ _ _ h6
              exact decompTriple_para_none pin (pin_chars_of_munchPin _ _ _ hmp)
          · rw [pc_id s idStr pin h1 h2 h3 h4 h5]
        · rw [pc_short s pin t y h1 h2 h3 h4,
              (parseSection_decomp _ _ _ _ _).2.2]
          obtain ⟨r2, r3, hmp⟩ := shortCit_pin _ _ _ _ h4
          exact decompTriple_para_none pin (pin_chars_of_munchPin _ _ _ hmp)
      · rw [pc_trBE s pin t y h1 h2 h3,
            (parseSection_decomp _ _ _ _ _).2.2]
        obtain ⟨r2, r3, hmp⟩ := trailingBE_pin _ _ _ _ h3
        exact decompTriple_para_none pin (pin_chars_of_munchPin _ _ _ hmp)
    · rw [pc_enBE s pin t y h1 h2,
          (parseSection_decomp _ _ _ _ _).2.2]
      obtain ⟨r2, r3, hmp⟩ := englishBE_pin _ _ _ _ h2
      exact decompTriple_para_none pin (pin_chars_of_munchPin _ _ _ hmp)
  · rw [pc_thai s pin t y h1,
        (parseSection_decomp _ _ _ _ _).2.2]
    obtain ⟨r2, r3, hmp⟩ := thaiCit_pin _ _ _ _ h1
    exact decompTriple_para_none pin (pin_chars_of_munchPin _ _ _ hmp)

/-
Facts about characters, decimal digits and trimming, used for the
format/parse round trip.
-/

lemma isDigitCh_false_of (c : Char) (h : ¬(48 ≤ c.toNat ∧ c.toNat ≤ 57)) :
    isDigitCh c = false := by
  cases hd : isDigitCh c
  · rfl
  · exfalso
    simp only [isDigitCh, Bool.and_eq_true, decide_eq_true_eq] at hd
    exact h hd

lemma isJsWs_false_of_range (c : Char) (h1 : 65 ≤ c.toNat) (h2 : c.toNat ≤ 122) :
    isJsWs c = false := by
  cases hw : isJsWs c
  · rfl
  · exfalso
    simp only [isJsWs, Bool.or_eq_true, Bool.and_eq_true, decide_eq_true_eq] at hw
    omega

lemma lowerCh_cases (c x : Char) (h : lowerCh c = x) :
    c = x ∨ (65 ≤ c.toNat ∧ c.toNat ≤ 90) := by
  unfold lowerCh at h
  split at h
  · rename_i hr
    simp only [Bool.and_eq_true, decide_eq_true_eq] at hr
    exact Or.inr hr
  · exact Or.inl h

lemma lowerCh_b_props (c : Char) (h : lowerCh c = 'b') :
    isDigitCh c = false ∧ isJsWs c = false := by
  rcases lowerCh_cases c 'b' h with rfl | ⟨h1, h2⟩
  · exact ⟨by decide, by decide⟩
  · exact ⟨isDigitCh_false_of c (by omega), isJsWs_false_of_range c h1 (by omega)⟩

lemma lowerCh_e_props (c : Char) (h : lowerCh c = 'e') :
    isDigitCh c = false ∧ isJsWs c = false := by
  rcases lowerCh_cases c 'e' h with rfl | ⟨h1, h2⟩
  · exact ⟨by decide, by decide⟩
  · exact ⟨isDigitCh_false_of c (by omega), isJsWs_false_of_range c h1 (by omega)⟩

lemma digitCh_isDigit (k : Nat) (h : k < 10) : isDigitCh (digitCh k) = true := by
  interval_cases k <;> decide

lemma digitVal_digitCh (k : Nat) (h : k < 10) : digitVal (digitCh k) = k := by
  interval_cases k <;> decide

lemma natToDigitsGo_fuel_eq :
    ∀ n f g acc, n ≤ f → n ≤ g → natToDigitsGo f n acc = natToDigitsGo g n acc := by
  intro n
  induction n using Nat.strong_induction_on with
  | _ n ih =>
    intro f g acc hf hg
    cases f with
    | zero =>
      cases g with
      | zero => rfl
      | succ g =>
        have hn : n = 0 := Nat.le_zero.mp hf
        subst hn
        simp [natToDigitsGo]
    | succ f =>
      cases g with
      | zero =>
        have hn : n = 0 := Nat.le_zero.mp hg
        subst hn
        simp [natToDigitsGo]
      | succ g =>
        unfold natToDigitsGo
        by_cases hn : n < 10
        · rw [if_pos hn, if_pos hn]
        · rw [if_neg hn, if_neg hn]
          exact ih (n / 10) (Nat.div_lt_self (by omega) (by omega)) f g _
            (by omega) (by omega)

lemma natToDigits4 (n : Nat) (h1 : 1000 ≤ n) (h2 : n ≤ 9999) :
    natToDigits n =
      [digitCh (n / 1000), digitCh (n / 100 % 10), digitCh (n / 10 % 10), digitCh (n % 10)] := by
  unfold natToDigits
  rw [natToDigitsGo_fuel_eq n n 10000 [] (Nat.le_refl n) (by omega)]
  unfold natToDigitsGo
  rw [if_neg (by omega)]
  unfold natToDigitsGo
  rw [if_neg (by omega)]
  unfold natToDigitsGo
  rw [if_neg (by omega)]
  unfold natToDigitsGo
  rw [if_pos (by omega)]
  have e1 : n / 10 / 10 / 10 = n / 1000 := by
    rw [Nat.div_div_eq_div_mul, Nat.div_div_eq_div_mul]
  have e2 : n / 10 / 10 % 10 = n / 100 % 10 := by
    rw [Nat.div_div_eq_div_mul]
  rw [e1, e2]

lemma natToDigits4_digits (n : Nat) (h1 : 1000 ≤ n) (h2 : n ≤ 9999) :
    (natToDigits n).length = 4 ∧ (∀ c ∈ natToDigits n, isDigitCh c = true) ∧
    parseIntDec (natToDigits n) = Int.ofNat n := by
  rw [natToDigits4 n h1 h2]
  refine ⟨rfl, ?_, ?_⟩
  · intro c hc
    simp only [List.mem_cons, List.not_mem_nil, or_false] at hc
    rcases hc with rfl | rfl | rfl | rfl
    · exact digitCh_isDigit _ (by omega)
    · exact digitCh_isDigit _ (by omega)
    · exact digitCh_isDigit _ (by omega)
    · exact digitCh_isDigit _ (by omega)
  · unfold parseIntDec digitsToNat
    simp only [List.foldl]
    rw [digitVal_digitCh _ (by omega), digitVal_digitCh _ (by omega),
        digitVal_digitCh _ (by omega), digitVal_digitCh _ (by omega)]
    congr 1
    omega

lemma intToStr_ofNat (n : Nat) : intToStr (Int.ofNat n) = natToDigits n := by
  unfold intToStr
  split
  · rename_i hlt
    exact absurd hlt (Int.not_lt.mpr (Int.ofNat_nonneg n))
  · rfl

lemma dropWhile_eq_self_of_head (l : Str)
    (h : l.head?.all (fun c => !isJsWs c) = true) :
    l.dropWhile isJsWs = l := by
  cases l with
  | nil => rfl
  | cons c r =>
    simp only [List.head?_cons, Option.all_some, Bool.not_eq_true'] at h
    simp [List.dropWhile, h]

lemma jsTrim_eq_self (l : Str)
    (h1 : l.head?.all (fun c => !isJsWs c) = true)
    (h2 : l.getLast?.all (fun c => !isJsWs c) = true) :
    jsTrim l = l := by
  unfold jsTrim
  rw [dropWhile_eq_self_of_head l h1]
  rw [dropWhile_eq_self_of_head l.reverse (by rw [List.head?_reverse]; exact h2)]
  exact List.reverse_reverse l

/-- The formalisation of a title free of year and section markers: it is
nonempty, trimmed, containing no digits and no line terminators, and it
contains no known Thai short-title key. -/
def cleanTitle (T : Str) : Prop :=
  T ≠ [] ∧
  (∀ c ∈ T, isDotCh c = true ∧ isDigitCh c = false) ∧
  T.head?.all (fun c => !isJsWs c) = true ∧
  T.getLast?.all (fun c => !isJsWs c) = true ∧
  resolveThaiTitle T = none

/-- C3 counterexample: "abc-def, s. 3" parses successfully through the
bare-identifier grammar with the clean, marker-free title "abc-def",
but its full English rendering carries no year, fails to re-parse, and
re-formats to the empty string instead of the original rendering. -/
theorem c3_counterexample :
    (parseCitation (str "abc-def, s. 3")).valid = true ∧
    (parseCitation (str "abc-def, s. 3")).title = some (str "abc-def") ∧
    cleanTitle (str "abc-def") ∧
    formatCitation
        (parseCitation
          (formatCitation (parseCitation (str "abc-def, s. 3")) (str "full_en")))
        (str "full_en") ≠
      formatCitation (parseCitation (str "abc-def, s. 3")) (str "full_en") := by
  refine ⟨by decide, by decide, ?_, by decide⟩
  refine ⟨by decide, by decide, by decide, by decide, by decide⟩

/-
Trace lemmas: stepping the combinators through the formatted string.
-/

lemma firstDown1_one {α : Type} (f : Nat → Option α) : firstDown1 f 1 = f 1 := by
  unfold firstDown1
  cases hf : f 1
  · rfl
  · rfl

lemma wsPlusThen_none {α : Type} (s : Str) (k : Str → Option α)
    (h : (s.takeWhile isJsWs).length = 0) : wsPlusThen s k = none := by
  unfold wsPlusThen
  rw [h]
  rfl

lemma wsPlusThen_single {α : Type} (c : Char) (s' : Str) (k : Str → Option α)
    (hc : isJsWs c = true)
    (hs : s'.head?.all (fun d => !isJsWs d) = true) :
    wsPlusThen (c :: s') k = k s' := by
  unfold wsPlusThen
  have htw : (c :: s').takeWhile isJsWs = [c] := by
    cases s' with
    | nil => simp [List.takeWhile, hc]
    | cons d r =>
      simp only [List.head?_cons, Option.all_some, Bool.not_eq_true'] at hs
      simp [List.takeWhile, hc, hs]
  rw [htw]
  show firstDown1 (fun j => k ((c :: s').drop j)) 1 = k s'
  rw [firstDown1_one]
  rfl

lemma wsStarThen_single_of {α : Type} (c : Char) (s' : Str) (k : Str → Option α)
    (a : α) (hc : isJsWs c = true)
    (hs : s'.head?.all (fun d => !isJsWs d) = true)
    (h : k s' = some a) :
    wsStarThen (c :: s') k = some a := by
  unfold wsStarThen
  have htw : (c :: s').takeWhile isJsWs = [c] := by
    cases s' with
    | nil => simp [List.takeWhile, hc]
    | cons d r =>
      simp only [List.head?_cons, Option.all_some, Bool.not_eq_true'] at hs
      simp [List.takeWhile, hc, hs]
  rw [htw]
  show firstDown (fun j => k ((c :: s').drop j)) 1 = some a
  unfold firstDown
  simp only [List.drop_succ_cons, List.drop_zero]
  rw [h]

lemma wsStarThen_zero_of {α : Type} (s : Str) (k : Str → Option α)
    (h0 : (s.takeWhile isJsWs).length = 0) :
    wsStarThen s k = k s := by
  unfold wsStarThen
  rw [h0]
  rfl

lemma sepCommaWsThen_comma_sp {α : Type} (s' : Str) (k : Str → Option α)
    (hs : s'.head?.all (fun d => !isJsWs d) = true) :
    sepCommaWsThen (',' :: ' ' :: s') k = k s' := by
  unfold sepCommaWsThen
  have htw : ((',' :: ' ' :: s').takeWhile isJsWs) = [] := by
    have h1 : isJsWs ',' = false := by decide
    simp [List.takeWhile, h1]
  rw [htw]
  show (match wsPlusThen (' ' :: s') k with
        | some a => some a
        | none => wsPlusThen (',' :: ' ' :: s') k) = k s'
  rw [wsPlusThen_single ' ' s' k (by decide) hs]
  cases hk : k s'
  · exact wsPlusThen_none _ _ (by rw [htw]; rfl)
  · rfl

lemma digit_not_ws (c : Char) (h : isDigitCh c = true) : isJsWs c = false := by
  simp only [isDigitCh, Bool.and_eq_true, decide_eq_true_eq] at h
  cases hw : isJsWs c
  · rfl
  · exfalso
    simp only [isJsWs, Bool.or_eq_true, Bool.and_eq_true, decide_eq_true_eq] at hw
    omega

lemma matchLitCI_section (rest : Str) :
    matchLitCI (str "section") (str "Section " ++ rest) = some (' ' :: rest) := by
  show matchLitCI ('s' :: 'e' :: 'c' :: 't' :: 'i' :: 'o' :: 'n' :: [])
      ('S' :: 'e' :: 'c' :: 't' :: 'i' :: 'o' :: 'n' :: ' ' :: rest) = some (' ' :: rest)
  simp [matchLitCI, show lowerCh 'S' = 's' from by decide,
    show lowerCh 'e' = 'e' from by decide, show lowerCh 'c' = 'c' from by decide,
    show lowerCh 't' = 't' from by decide, show lowerCh 'i' = 'i' from by decide,
    show lowerCh 'o' = 'o' from by decide, show lowerCh 'n' = 'n' from by decide]

lemma markerSectionThen_section {α : Type} (rest : Str) (k : Str → Option α) (a : α)
    (h : k (' ' :: rest) = some a) :
    markerSectionThen (str "Section " ++ rest) k = some a := by
  simp only [markerSectionThen, matchLitCI_section rest, h]

lemma thaiCit_cons_ne (c : Char) (rest : Str) (hc : ¬ c = 'ม') :
    thaiCit (c :: rest) = none := by
  unfold thaiCit
  have hm : matchLit (str "มาตรา") (c :: rest) = none := by
    show matchLit ('ม' :: 'า' :: 'ต' :: 'ร' :: 'า' :: []) (c :: rest) = none
    simp [matchLit, hc]
  rw [hm]

lemma matchLit_thai_marker (rest : Str) :
    matchLit (str "มาตรา") (str "มาตรา " ++ rest) = some (' ' :: rest) := by
  show matchLit ('ม' :: 'า' :: 'ต' :: 'ร' :: 'า' :: [])
      ('ม' :: 'า' :: 'ต' :: 'ร' :: 'า' :: ' ' :: rest) = some (' ' :: rest)
  simp [matchLit]

lemma beTokThen_lit {α : Type} (rest : Str) (k : Str → Option α) (a : α)
    (h : k rest = some a) :
    beTokThen ('B' :: '.' :: 'E' :: '.' :: rest) k = some a := by
  unfold beTokThen beAfterB
  simp [show lowerCh 'B' = 'b' from by decide,
    show lowerCh 'E' = 'e' from by decide, h]

lemma take4Digits_of (c1 c2 c3 c4 : Char) (rest : Str)
    (h1 : isDigitCh c1 = true) (h2 : isDigitCh c2 = true)
    (h3 : isDigitCh c3 = true) (h4 : isDigitCh c4 = true) :
    take4Digits (c1 :: c2 :: c3 :: c4 :: rest) = some ([c1, c2, c3, c4], rest) := by
  simp [take4Digits, h1, h2, h3, h4]

lemma optParenYearEnd_paren (c1 c2 c3 c4 : Char)
    (h1 : isDigitCh c1 = true) (h2 : isDigitCh c2 = true)
    (h3 : isDigitCh c3 = true) (h4 : isDigitCh c4 = true) :
    optParenYearEnd (' ' :: '(' :: c1 :: c2 :: c3 :: c4 :: [')']) = true := by
  unfold optParenYearEnd parenYearEnd
  have hk : (fun r => match r with
      | '(' :: r2 =>
        (match take4Digits r2 with
         | some (_, ')' :: r3) => if r3 = [] then some () else none
         | _ => none)
      | _ => (none : Option Unit)) ('(' :: c1 :: c2 :: c3 :: c4 :: [')']) = some () := by
    show (match take4Digits (c1 :: c2 :: c3 :: c4 :: [')']) with
          | some (_, ')' :: r3) => if r3 = [] then some () else none
          | _ => none) = some ()
    rw [take4Digits_of c1 c2 c3 c4 [')'] h1 h2 h3 h4]
    rfl
  rw [wsStarThen_single_of ' ' ('(' :: c1 :: c2 :: c3 :: c4 :: [')']) _ ()
    (by decide) (by rw [List.head?_cons]; decide) hk]
  rfl

lemma ebTail_at (b1 b2 b3 b4 c1 c2 c3 c4 : Char)
    (hb1 : isDigitCh b1 = true) (hb2 : isDigitCh b2 = true)
    (hb3 : isDigitCh b3 = true) (hb4 : isDigitCh b4 = true)
    (hc1 : isDigitCh c1 = true) (hc2 : isDigitCh c2 = true)
    (hc3 : isDigitCh c3 = true) (hc4 : isDigitCh c4 = true) :
    ebTail (str " B.E. " ++ ([b1, b2, b3, b4] ++ (str " (" ++ ([c1, c2, c3, c4] ++ [')'])))) =
      some [b1, b2, b3, b4] := by
  have hk3 : (fun r3 => match take4Digits r3 with
              | some (y, r4) => if optParenYearEnd r4 then some y else none
              | none => (none : Option Str))
      (b1 :: b2 :: b3 :: b4 :: (' ' :: '(' :: c1 :: c2 :: c3 :: c4 :: [')'])) =
      some [b1, b2, b3, b4] := by
    show (match take4Digits (b1 :: b2 :: b3 :: b4 :: (' ' :: '(' :: c1 :: c2 :: c3 :: c4 :: [')'])) with
          | some (y, r4) => if optParenYearEnd r4 then some y else none
          | none => (none : Option Str)) = some [b1, b2, b3, b4]
    rw [take4Digits_of _ _ _ _ _ hb1 hb2 hb3 hb4]
    simp [optParenYearEnd_paren c1 c2 c3 c4 hc1 hc2 hc3 hc4]
  have hk2 : wsStarThen (' ' :: b1 :: b2 :: b3 :: b4 :: ' ' :: '(' :: c1 :: c2 :: c3 :: c4 :: [')'])
      (fun r3 => match take4Digits r3 with
       | some (y, r4) => if optParenYearEnd r4 then some y else none
       | none => (none : Option Str)) = some [b1, b2, b3, b4] := by
    refine wsStarThen_single_of _ _ _ _ (by decide) ?_ hk3
    rw [List.head?_cons]
    show (!isJsWs b1) = true
    rw [digit_not_ws b1 hb1]
    rfl
  show ebTail (' ' :: 'B' :: '.' :: 'E' :: '.' :: ' ' ::
      b1 :: b2 :: b3 :: b4 :: ' ' :: '(' :: c1 :: c2 :: c3 :: c4 :: [')']) = some [b1, b2, b3, b4]
  unfold ebTail
  rw [wsPlusThen_single ' ' _ _ (by decide) (by rw [List.head?_cons]; decide)]
  exact beTokThen_lit _ _ _ hk2

lemma thaiTail_at (b1 b2 b3 b4 : Char)
    (hb1 : isDigitCh b1 = true) (hb2 : isDigitCh b2 = true)
    (hb3 : isDigitCh b3 = true) (hb4 : isDigitCh b4 = true) :
    thaiTail (str " พ.ศ. " ++ [b1, b2, b3, b4]) = some [b1, b2, b3, b4] := by
  have hk3 : wsStarThen (' ' :: b1 :: b2 :: b3 :: b4 :: [])
      (fun r3 => match take4Digits r3 with
       | some (y, r4) => if r4 = [] then some y else none
       | none => (none : Option Str)) = some [b1, b2, b3, b4] := by
    refine wsStarThen_single_of _ _ _ _ (by decide) ?_ ?_
    · rw [List.head?_cons]
      show (!isJsWs b1) = true
      rw [digit_not_ws b1 hb1]
      rfl
    · show (match take4Digits (b1 :: b2 :: b3 :: b4 :: []) with
            | some (y, r4) => if r4 = [] then some y else none
            | none => (none : Option Str)) = some [b1, b2, b3, b4]
      rw [take4Digits_of _ _ _ _ _ hb1 hb2 hb3 hb4]
      rfl
  show thaiTail (' ' :: 'พ' :: '.' :: 'ศ' :: '.' :: ' ' :: b1 :: b2 :: b3 :: b4 :: []) =
      some [b1, b2, b3, b4]
  unfold thaiTail
  rw [wsPlusThen_single ' ' _ _ (by decide) (by rw [List.head?_cons]; decide)]
  exact hk3

lemma lazyDotPlus_exact {α : Type} (tailF : Str → Option α) :
    ∀ (T R : Str) (a : α), T ≠ [] → (∀ c ∈ T, isDotCh c = true) →
      (∀ k, 1 ≤ k → k < T.length → tailF (T.drop k ++ R) = none) →
      tailF R = some a →
      lazyDotPlus tailF (T ++ R) = some (T, a) := by
  intro T
  induction T with
  | nil =>
    intro R a hne
    exact absurd rfl hne
  | cons c T' ih =>
    intro R a hne hdot hfail hR
    have hc : isDotCh c = true := hdot c (by simp)
    cases T' with
    | nil =>
      show lazyDotPlus tailF (c :: R) = some ([c], a)
      unfold lazyDotPlus
      rw [if_pos hc, hR]
    | cons d T'' =>
      show lazyDotPlus tailF (c :: ((d :: T'') ++ R)) = some (c :: d :: T'', a)
      unfold lazyDotPlus
      rw [if_pos hc]
      have hfail1 : tailF ((d :: T'') ++ R) = none := by
        have h := hfail 1 (by omega) (by simp)
        simpa using h
      rw [hfail1]
      have hrec := ih R a (by simp) (fun x hx => hdot x (by simp [hx]))
        (fun k hk1 hk2 => by
          have hk2' : k < T''.length + 1 := by simpa using hk2
          have h := hfail (k + 1) (by omega) (by simp; omega)
          simpa using h) hR
      rw [hrec]

/-
Structural decomposition of the anchored year tails, for the premature
failure of the lazy title.
-/

lemma take_ws_of_le (p : Char → Bool) (s : Str) (j : Nat)
    (hj : j ≤ (s.takeWhile p).length) : ∀ c ∈ s.take j, p c = true := by
  intro c hc
  have hs : s.take j = (s.takeWhile p).take j := by
    conv_lhs => rw [← List.takeWhile_append_dropWhile (p := p) (l := s)]
    rw [List.take_append_of_le_length hj]
  rw [hs] at hc
  exact List.mem_takeWhile_imp (List.take_subset j _ hc)

lemma wsPlusThen_decomp {α : Type} (s : Str) (k : Str → Option α) (a : α)
    (h : wsPlusThen s k = some a) :
    ∃ w rest, s = w ++ rest ∧ (∀ c ∈ w, isJsWs c = true) ∧ k rest = some a := by
  obtain ⟨j, _, hj, hk⟩ := wsPlusThen_sound s k a h
  exact ⟨s.take j, s.drop j, (List.take_append_drop j s).symm,
    take_ws_of_le isJsWs s j hj, hk⟩

lemma wsStarThen_decomp {α : Type} (s : Str) (k : Str → Option α) (a : α)
    (h : wsStarThen s k = some a) :
    ∃ w rest, s = w ++ rest ∧ (∀ c ∈ w, isJsWs c = true) ∧ k rest = some a := by
  obtain ⟨j, hj, hk⟩ := wsStarThen_sound s k a h
  exact ⟨s.take j, s.drop j, (List.take_append_drop j s).symm,
    take_ws_of_le isJsWs s j hj, hk⟩

lemma beAfterB_decomp {α : Type} (s2 : Str) (k : Str → Option α) (a : α)
    (h : beAfterB s2 k = some a) :
    ∃ eb rest, s2 = eb ++ rest ∧ eb.length ≤ 2 ∧ k rest = some a := by
  unfold beAfterB at h
  split at h
  · rename_i e r2
    split at h
    · split at h
      · rename_i r3
        split at h
        · rename_i heq
          cases h
          exact ⟨[e, '.'], r3, rfl, by simp, heq⟩
        · exact ⟨[e], '.' :: r3, rfl, by simp, h⟩
      · exact ⟨[e], r2, rfl, by simp, h⟩
    · cases h
  · cases h

lemma beTokThen_decomp {α : Type} (s : Str) (k : Str → Option α) (a : α)
    (h : beTokThen s k = some a) :
    ∃ b rest, s = b ++ rest ∧ b.length ≤ 4 ∧ k rest = some a := by
  unfold beTokThen at h
  split at h
  · rename_i b0 r
    split at h
    · split at h
      · rename_i r2
        split at h
        · rename_i heq
          obtain ⟨eb, rest, h1, h2, h3⟩ := beAfterB_decomp _ _ _ heq
          cases h
          refine ⟨b0 :: '.' :: eb, rest, ?_, by simp only [List.length_cons]; omega, h3⟩
          rw [h1]
          rfl
        · obtain ⟨eb, rest, h1, h2, h3⟩ := beAfterB_decomp _ _ _ h
          refine ⟨b0 :: eb, rest, ?_, by simp only [List.length_cons]; omega, h3⟩
          rw [h1]
          rfl
      · obtain ⟨eb, rest, h1, h2, h3⟩ := beAfterB_decomp _ _ _ h
        refine ⟨b0 :: eb, rest, ?_, by simp only [List.length_cons]; omega, h3⟩
        rw [h1]
        rfl
    · cases h
  · cases h

lemma take4Digits_sound (s y r : Str) (h : take4Digits s = some (y, r)) :
    s = y ++ r ∧ y.length = 4 ∧ ∀ c ∈ y, isDigitCh c = true := by
  unfold take4Digits at h
  split at h
  · rename_i a b c d r0
    split at h
    · rename_i hd
      simp only [Bool.and_eq_true] at hd
      cases h
      refine ⟨rfl, rfl, ?_⟩
      intro x hx
      simp only [List.mem_cons, List.not_mem_nil, or_false] at hx
      rcases hx with rfl | rfl | rfl | rfl
      · exact hd.1.1.1
      · exact hd.1.1.2
      · exact hd.1.2
      · exact hd.2
    · cases h
  · cases h

lemma length_filter_cons_le (p : Char → Bool) (c : Char) (l : Str) :
    ((c :: l).filter p).length ≤ (l.filter p).length + 1 := by
  simp only [List.filter_cons]
  split
  · simp
  · simp

lemma optParenYearEnd_nonws (r : Str) (h : optParenYearEnd r = true) :
    (r.filter (fun c => !isJsWs c)).length ≤ 6 := by
  unfold optParenYearEnd at h
  rcases Bool.or_eq_true_iff.mp h with hp | he
  · unfold parenYearEnd at hp
    rw [Option.isSome_iff_exists] at hp
    obtain ⟨u, hu⟩ := hp
    obtain ⟨w3, rest, hr, hw3, hk⟩ := wsStarThen_decomp _ _ _ hu
    split at hk
    · rename_i r2
      split at hk
      · rename_i y0 r3 heq
        split at hk
        · rename_i hr3
          obtain ⟨h1, h2, _⟩ := take4Digits_sound _ _ _ heq
          subst hr3
          rw [hr, h1]
          have e1 : w3.filter (fun c => !isJsWs c) = [] :=
            List.filter_eq_nil_iff.mpr (fun c hc => by simp [hw3 c hc])
          simp only [List.filter_append, List.length_append, e1, List.length_nil]
          have l1 := List.length_filter_le (fun c => !isJsWs c) ('(' :: (y0 ++ ')' :: []))
          simp only [List.length_cons, List.length_append, List.length_nil] at l1
          omega
        · cases hk
      · cases hk
    · cases hk
  · have : r = [] := by simpa using he
    subst this
    simp

lemma ebTail_nonws (s y : Str) (h : ebTail s = some y) :
    (s.filter (fun c => !isJsWs c)).length ≤ 14 := by
  unfold ebTail at h
  obtain ⟨w1, r1, hs1, hw1, h1⟩ := wsPlusThen_decomp _ _ _ h
  obtain ⟨b, r2, hr1, hb, h2⟩ := beTokThen_decomp _ _ _ h1
  obtain ⟨w2, r3, hr2, hw2, h3⟩ := wsStarThen_decomp _ _ _ h2
  split at h3
  · rename_i y0 r4 heq
    split at h3
    · rename_i hopt
      cases h3
      obtain ⟨hr3, hylen, _⟩ := take4Digits_sound _ _ _ heq
      rw [hs1, hr1, hr2, hr3]
      have e1 : w1.filter (fun c => !isJsWs c) = [] :=
        List.filter_eq_nil_iff.mpr (fun c hc => by simp [hw1 c hc])
      have e2 : w2.filter (fun c => !isJsWs c) = [] :=
        List.filter_eq_nil_iff.mpr (fun c hc => by simp [hw2 c hc])
      simp only [List.filter_append, List.length_append, e1, e2, List.length_nil]
      have l1 : (b.filter (fun c => !isJsWs c)).length ≤ 4 := by
        have := List.length_filter_le (fun c => !isJsWs c) b
        omega
      have l2 : (y.filter (fun c => !isJsWs c)).length ≤ 4 := by
        have := List.length_filter_le (fun c => !isJsWs c) y
        omega
      have l3 := optParenYearEnd_nonws r4 hopt
      omega
    · cases h3
  · cases h3

lemma thaiTail_nonws (s y : Str) (h : thaiTail s = some y) :
    (s.filter (fun c => !isJsWs c)).length ≤ 8 := by
  unfold thaiTail at h
  obtain ⟨w1, r1, hs1, hw1, h1⟩ := wsPlusThen_decomp _ _ _ h
  split at h1
  · rename_i r2
    obtain ⟨w2, r3, hr2, hw2, h3⟩ := wsStarThen_decomp _ _ _ h1
    split at h3
    · rename_i y0 r4 heq
      split at h3
      · rename_i hr4
        cases h3
        obtain ⟨hr3, hylen, _⟩ := take4Digits_sound _ _ _ heq
        subst hr4
        rw [hs1, hr2, hr3]
        simp only [List.append_nil]
        have e1 : w1.filter (fun c => !isJsWs c) = [] :=
          List.filter_eq_nil_iff.mpr (fun c hc => by simp [hw1 c hc])
        have e2 : w2.filter (fun c => !isJsWs c) = [] :=
          List.filter_eq_nil_iff.mpr (fun c hc => by simp [hw2 c hc])
        simp only [List.filter_append, List.length_append, e1, List.length_nil]
        have a1 := length_filter_cons_le (fun c => !isJsWs c) 'พ'
          ('.' :: 'ศ' :: '.' :: (w2 ++ y))
        have a2 := length_filter_cons_le (fun c => !isJsWs c) '.'
          ('ศ' :: '.' :: (w2 ++ y))
        have a3 := length_filter_cons_le (fun c => !isJsWs c) 'ศ'
          ('.' :: (w2 ++ y))
        have a4 := length_filter_cons_le (fun c => !isJsWs c) '.' (w2 ++ y)
        have a5 : ((w2 ++ y).filter (fun c => !isJsWs c)).length ≤ 4 := by
          have := List.length_filter_le (fun c => !isJsWs c) y
          simp only [List.filter_append, List.length_append, e2, List.length_nil]
          omega
        omega
      · cases h3
    · cases h3
  · cases h1

lemma ebTail_none_of (s : Str)
    (h : 15 ≤ (s.filter (fun c => !isJsWs c)).length) : ebTail s = none := by
  cases heq : ebTail s with
  | none => rfl
  | some y =>
    have := ebTail_nonws s y heq
    omega

lemma thaiTail_none_of (s : Str)
    (h : 9 ≤ (s.filter (fun c => !isJsWs c)).length) : thaiTail s = none := by
  cases heq : thaiTail s with
  | none => rfl
  | some y =>
    have := thaiTail_nonws s y heq
    omega

lemma filter_nonws_of_digits (Y : Str) (h : ∀ c ∈ Y, isDigitCh c = true) :
    Y.filter (fun c => !isJsWs c) = Y :=
  List.filter_eq_self.mpr (fun c hc => by simp [digit_not_ws c (h c hc)])

lemma nonws_drop_pos (T : Str) (k : Nat) (hk : k < T.length)
    (hlast : T.getLast?.all (fun c => !isJsWs c) = true) :
    1 ≤ ((T.drop k).filter (fun c => !isJsWs c)).length := by
  have hne : T.drop k ≠ [] := by
    intro he
    have := List.drop_eq_nil_iff.mp he
    omega
  have hgl : (T.drop k).getLast? = T.getLast? := by
    conv_rhs => rw [← List.take_append_drop k T]
    rw [List.getLast?_append_of_ne_nil _ hne]
  obtain ⟨c, hc⟩ := Option.isSome_iff_exists.mp (List.getLast?_isSome.mpr hne)
  have hcw : (!isJsWs c) = true := by
    rw [hgl] at hc
    rw [hc] at hlast
    simpa using hlast
  have hmem : c ∈ T.drop k := List.mem_of_getLast?_eq_some hc
  have hmf : c ∈ (T.drop k).filter (fun c => !isJsWs c) :=
    List.mem_filter.mpr ⟨hmem, hcw⟩
  have := List.length_pos.mpr (List.ne_nil_of_mem hmf)
  omega

lemma ebTail_premature (T Y C : Str) (k : Nat) (hk : k < T.length)
    (hlast : T.getLast?.all (fun c => !isJsWs c) = true)
    (hY : ∀ c ∈ Y, isDigitCh c = true) (hYlen : Y.length = 4)
    (hC : ∀ c ∈ C, isDigitCh c = true) (hClen : C.length = 4) :
    ebTail (T.drop k ++ (str " B.E. " ++ (Y ++ (str " (" ++ (C ++ [')']))))) = none := by
  apply ebTail_none_of
  simp only [List.filter_append, List.length_append]
  have h1 := nonws_drop_pos T k hk hlast
  have h2 : ((str " B.E. ").filter (fun c => !isJsWs c)).length = 4 := by decide
  have h3 : Y.filter (fun c => !isJsWs c) = Y := filter_nonws_of_digits Y hY
  have h4 : ((str " (").filter (fun c => !isJsWs c)).length = 1 := by decide
  have h5 : C.filter (fun c => !isJsWs c) = C := filter_nonws_of_digits C hC
  have h6 : (([')'] : Str).filter (fun c => !isJsWs c)).length = 1 := by decide
  rw [h3, h5]
  omega

lemma thaiTail_premature (T Y : Str) (k : Nat) (hk : k < T.length)
    (hlast : T.getLast?.all (fun c => !isJsWs c) = true)
    (hY : ∀ c ∈ Y, isDigitCh c = true) (hYlen : Y.length = 4) :
    thaiTail (T.drop k ++ (str " พ.ศ. " ++ Y)) = none := by
  apply thaiTail_none_of
  simp only [List.filter_append, List.length_append]
  have h1 := nonws_drop_pos T k hk hlast
  have h2 : ((str " พ.ศ. ").filter (fun c => !isJsWs c)).length = 4 := by decide
  have h3 : Y.filter (fun c => !isJsWs c) = Y := filter_nonws_of_digits Y hY
  rw [h3]
  omega

/-
Completeness of the pinpoint muncher on a rendered pinpoint.
-/

lemma munchDigits1_of (d1 B : Str) (hd : d1 ≠ [])
    (hdig : ∀ c ∈ d1, isDigitCh c = true)
    (hB : ∀ c, B.head? = some c → isDigitCh c = false) :
    munchDigits1 (d1 ++ B) = some (d1, B) := by
  unfold munchDigits1
  rw [takeWhile_append_not _ _ _ hdig hB, dropWhile_append_not _ _ _ hdig hB]
  rcases d1 with _ | ⟨c0, cs⟩
  · exact absurd rfl hd
  · rfl

lemma renderGroups_nil : renderGroups [] = [] := rfl

lemma munchGroups_complete (gl : List Str) (rest : Str)
    (hwf : ∀ g ∈ gl, g ≠ [] ∧ ∀ c ∈ g, isDigitCh c = true)
    (hh : ∀ c, rest.head? = some c → c ≠ '(') :
    munchGroups (renderGroups gl ++ rest) = (renderGroups gl, rest) := by
  rw [munchGroups_eq]
  apply munchGroupsGo_complete _ gl rest hwf hh
  have := length_le_renderGroups gl
  simp only [List.length_append]
  omega

lemma munchPin_complete (pp : PinParts) (rest : Str) (hWF : pp.WF)
    (hrest : ∀ c, rest.head? = some c → pinChar c = false) :
    munchPin (pp.render ++ rest) = some (pp.render, rest) := by
  obtain ⟨d1, slash, groups⟩ := pp
  obtain ⟨hne, hdig, hslash, hgroups⟩ := hWF
  simp only at hne hdig hslash hgroups
  have hGrest : ∀ c, (renderGroups groups ++ rest).head? = some c →
      isDigitCh c = false := by
    intro c hc
    cases groups with
    | nil =>
      rw [renderGroups_nil, List.nil_append] at hc
      have := hrest c hc
      unfold pinChar at this
      simp only [Bool.or_eq_false_iff] at this
      exact this.1.1.1
    | cons g gl =>
      rw [renderGroups_cons] at hc
      rw [List.cons_append, List.head?_cons] at hc
      injection hc with hc
      subst hc
      decide
  have hGparen : ∀ c, rest.head? = some c → c ≠ '(' := by
    intro c hc he
    subst he
    have := hrest '(' hc
    exact absurd this (by decide)
  cases slash with
  | some d2 =>
    obtain ⟨hne2, hdig2⟩ := hslash d2 rfl
    have hs : (⟨d1, some d2, groups⟩ : PinParts).render ++ rest =
        d1 ++ ('/' :: (d2 ++ (renderGroups groups ++ rest))) := by
      simp [PinParts.render]
    rw [hs]
    unfold munchPin
    rw [munchDigits1_of d1 ('/' :: (d2 ++ (renderGroups groups ++ rest))) hne hdig
      (by intro c hc; rw [List.head?_cons] at hc; injection hc with hc; subst hc; decide)]
    dsimp only
    split
    · rename_i r1t heq
      injection heq with h1 h2
      subst h2
      rw [munchDigits1_of d2 (renderGroups groups ++ rest) hne2 hdig2 hGrest]
      dsimp only
      rw [munchGroups_complete groups rest hgroups hGparen]
      simp [PinParts.render]
    · rename_i hcon
      exact absurd rfl (hcon (d2 ++ (renderGroups groups ++ rest)))
  | none =>
    cases groups with
    | nil =>
      have hs : (⟨d1, none, []⟩ : PinParts).render ++ rest = d1 ++ rest := by
        simp [PinParts.render, renderGroups_nil]
      rw [hs]
      unfold munchPin
      rw [munchDigits1_of d1 rest hne hdig
        (by intro c hc
            have := hrest c hc
            unfold pinChar at this
            simp only [Bool.or_eq_false_iff] at this
            exact this.1.1.1)]
      dsimp only
      split
      · rename_i r1t
        exfalso
        have := hrest '/' rfl
        exact absurd this (by decide)
      · have hmg : munchGroups rest = ([], rest) := by
          have := munchGroups_complete [] rest (by simp) hGparen
          rw [renderGroups_nil, List.nil_append] at this
          exact this
        rw [hmg]
        simp [PinParts.render, renderGroups_nil]
    | cons g gl =>
      have hs : (⟨d1, none, g :: gl⟩ : PinParts).render ++ rest =
          d1 ++ ('(' :: ((g ++ ')' :: renderGroups gl) ++ rest)) := by
        simp [PinParts.render, renderGroups_cons]
      rw [hs]
      unfold munchPin
      rw [munchDigits1_of d1 ('(' :: ((g ++ ')' :: renderGroups gl) ++ rest)) hne hdig
        (by intro c hc; rw [List.head?_cons] at hc; injection hc with hc; subst hc; decide)]
      dsimp only
      split
      · rename_i r1t heq
        injection heq with h1 h2
        exact absurd h1 (by decide)
      · have hmg : munchGroups ('(' :: ((g ++ ')' :: renderGroups gl) ++ rest)) =
            (renderGroups (g :: gl), rest) := by
          have h0 := munchGroups_complete (g :: gl) rest hgroups hGparen
          rw [renderGroups_cons] at h0
          rw [renderGroups_cons]
          simp only [List.cons_append, List.append_assoc] at h0
          simp only [List.cons_append, List.append_assoc]
          exact h0
        rw [hmg]
        simp [PinParts.render]

lemma render_cons (pp : PinParts) (h : pp.WF) :
    ∃ c cs, pp.render = c :: cs ∧ isDigitCh c = true := by
  obtain ⟨hne, hdig, _, _⟩ := h
  rcases hd : pp.d1 with _ | ⟨c, cs⟩
  · exact absurd hd hne
  · refine ⟨c, cs ++ ((match pp.slash with
      | some d2 => '/' :: d2
      | none => []) ++ renderGroups pp.groups), ?_, hdig c (by rw [hd]; simp)⟩
    unfold PinParts.render
    rw [hd]
    simp

lemma englishBE_at (pp : PinParts) (T R y : Str) (hWF : pp.WF)
    (hTne : T ≠ [])
    (hThead : T.head?.all (fun c => !isJsWs c) = true)
    (hlazy : lazyDotPlus ebTail (T ++ R) = some (T, y)) :
    englishBE (str "Section " ++ (pp.render ++ (',' :: ' ' :: (T ++ R)))) =
      some (pp.render, T, y) := by
  obtain ⟨c, cs, hrender, hcdig⟩ := render_cons pp hWF
  have hheadPin : (pp.render ++ (',' :: ' ' :: (T ++ R))).head?.all
      (fun d => !isJsWs d) = true := by
    rw [hrender, List.cons_append, List.head?_cons]
    simp [digit_not_ws c hcdig]
  have hheadTR : (T ++ R).head?.all (fun d => !isJsWs d) = true := by
    rcases T with _ | ⟨t0, ts⟩
    · exact absurd rfl hTne
    · rw [List.cons_append, List.head?_cons]
      rw [List.head?_cons] at hThead
      exact hThead
  have hcomma : ∀ d, (',' :: ' ' :: (T ++ R) : Str).head? = some d →
      pinChar d = false := by
    intro d hd
    rw [List.head?_cons] at hd
    injection hd with hd
    subst hd
    decide
  unfold englishBE
  apply markerSectionThen_section
  dsimp only
  rw [wsPlusThen_single ' ' (pp.render ++ (',' :: ' ' :: (T ++ R))) _ (by decide) hheadPin]
  rw [munchPin_complete pp (',' :: ' ' :: (T ++ R)) hWF hcomma]
  dsimp only
  rw [sepCommaWsThen_comma_sp (T ++ R) _ hheadTR]
  rw [hlazy]
  rfl

lemma thaiCit_at (pp : PinParts) (T R y : Str) (hWF : pp.WF)
    (hTne : T ≠ [])
    (hThead : T.head?.all (fun c => !isJsWs c) = true)
    (hlazy : lazyDotPlus thaiTail (T ++ R) = some (T, y)) :
    thaiCit (str "มาตรา " ++ (pp.render ++ (' ' :: (T ++ R)))) =
      some (pp.render, T, y) := by
  obtain ⟨c, cs, hrender, hcdig⟩ := render_cons pp hWF
  have hheadPin : (pp.render ++ (' ' :: (T ++ R))).head?.all
      (fun d => !isJsWs d) = true := by
    rw [hrender, List.cons_append, List.head?_cons]
    simp [digit_not_ws c hcdig]
  have hheadTR : (T ++ R).head?.all (fun d => !isJsWs d) = true := by
    rcases T with _ | ⟨t0, ts⟩
    · exact absurd rfl hTne
    · rw [List.cons_append, List.head?_cons]
      rw [List.head?_cons] at hThead
      exact hThead
  have hsp : ∀ d, (' ' :: (T ++ R) : Str).head? = some d → pinChar d = false := by
    intro d hd
    rw [List.head?_cons] at hd
    injection hd with hd
    subst hd
    decide
  unfold thaiCit
  rw [matchLit_thai_marker]
  dsimp only
  rw [wsPlusThen_single ' ' (pp.render ++ (' ' :: (T ++ R))) _ (by decide) hheadPin]
  rw [munchPin_complete pp (' ' :: (T ++ R)) hWF hsp]
  dsimp only
  rw [wsPlusThen_single ' ' (T ++ R) _ (by decide) hheadTR]
  rw [hlazy]
  rfl

/-
Soundness of the SECTION_REF decomposition: the three captures
concatenate back (with their parentheses) to the matched fragment.
-/

lemma refSecSplit_sound (d1 r1 : Str) :
    (refSecSplit d1 r1).1 ++ (refSecSplit d1 r1).2 = d1 ++ r1 := by
  unfold refSecSplit
  split
  · rename_i r1t
    split
    · rename_i d2 r2t hd
      obtain ⟨h1, _, _⟩ := munchDigits1_sound r1t d2 r2t hd
      rw [h1]
      simp
    · rfl
  · rfl

lemma refSecSplit_fst (d1 r1 : Str) :
    ∃ t, (refSecSplit d1 r1).1 = d1 ++ t := by
  unfold refSecSplit
  split
  · rename_i r1t
    split
    · rename_i d2 r2t hd
      exact ⟨'/' :: d2, rfl⟩
    · exact ⟨[], by simp⟩
  · exact ⟨[], by simp⟩

def optGroupRender : Option Str → Str
  | some g => '(' :: g ++ [')']
  | none => []

lemma matchSectionRef_sound (s sec : Str) (sub para : Option Str)
    (h : matchSectionRef s = some (sec, sub, para)) :
    s = sec ++ (optGroupRender sub ++ optGroupRender para) := by
  unfold matchSectionRef at h
  rcases hd1 : munchDigits1 s with _ | ⟨d1, r1⟩
  · rw [hd1] at h
    cases h
  · rw [hd1] at h
    dsimp only at h
    obtain ⟨hs1, _, _⟩ := munchDigits1_sound s d1 r1 hd1
    have hsplit : (refSecSplit d1 r1).1 ++ (refSecSplit d1 r1).2 = s := by
      rw [refSecSplit_sound]
      exact hs1.symm
    split at h
    · rename_i a ha
      split at ha
      · rename_i g2 t2 hg2
        obtain ⟨hX, _, _⟩ := refTryG2_sound _ _ _ hg2
        split at ha
        · rename_i b hb
          split at hb
          · rename_i g3 t3 hg3
            obtain ⟨c, hc1, hc2, hc3⟩ := refTryG3_sound _ _ _ hg3
            split at hb
            · rename_i ht3
              cases hb
              cases ha
              cases h
              subst ht3
              rw [← hsplit, hX, hc3, hc1]
              simp [optGroupRender]
            · cases hb
          · cases hb
        · split at ha
          · rename_i ht2
            cases ha
            cases h
            subst ht2
            rw [← hsplit, hX]
            simp [optGroupRender]
          · cases ha
      · cases ha
    · split at h
      · rename_i b hb
        split at hb
        · rename_i g3 t3 hg3
          obtain ⟨c, hc1, hc2, hc3⟩ := refTryG3_sound _ _ _ hg3
          split at hb
          · rename_i ht3
            cases hb
            cases h
            subst ht3
            rw [← hsplit, hc3, hc1]
            simp [optGroupRender]
          · cases hb
        · cases hb
      · split at h
        · rename_i hX
          cases h
          rw [← hsplit, hX]
          simp [optGroupRender]
        · cases h

lemma matchSectionRef_sec_ne (s sec : Str) (sub para : Option Str)
    (h : matchSectionRef s = some (sec, sub, para)) : sec ≠ [] := by
  unfold matchSectionRef at h
  rcases hd1 : munchDigits1 s with _ | ⟨d1, r1⟩
  · rw [hd1] at h
    cases h
  · rw [hd1] at h
    dsimp only at h
    obtain ⟨_, hne, _⟩ := munchDigits1_sound s d1 r1 hd1
    obtain ⟨t, ht⟩ := refSecSplit_fst d1 r1
    split at h
    · rename_i a ha
      split at ha
      · rename_i g2 t2 hg2
        split at ha
        · rename_i b hb
          split at hb
          · rename_i g3 t3 hg3
            split at hb
            · cases hb
              cases ha
              cases h
              rw [ht]
              intro he
              rcases List.append_eq_nil.mp he with ⟨he1, _⟩
              exact hne he1
            · cases hb
          · cases hb
        · split at ha
          · cases ha
            cases h
            rw [ht]
            intro he
            rcases List.append_eq_nil.mp he with ⟨he1, _⟩
            exact hne he1
          · cases ha
      · cases ha
    · split at h
      · rename_i b hb
        split at hb
        · rename_i g3 t3 hg3
          split at hb
          · cases hb
            cases h
            rw [ht]
            intro he
            rcases List.append_eq_nil.mp he with ⟨he1, _⟩
            exact hne he1
          · cases hb
        · cases hb
      · split at h
        · cases h
          rw [ht]
          intro he
          rcases List.append_eq_nil.mp he with ⟨he1, _⟩
          exact hne he1
        · cases h

lemma buildPinpoint_parseSection (pin t : Str) (b c : Int) (ty : CitType) :
    buildPinpoint (parseSection pin t b c ty) = pin := by
  unfold parseSection
  split
  · simp [buildPinpoint, optStr]
  · rename_i sec sub para hm
    have hs := matchSectionRef_sound _ _ _ _ hm
    simp only [buildPinpoint, optStr]
    rw [hs]
    cases sub <;> cases para <;> simp [optGroupRender]

lemma parseSection_strFalsy (pin t : Str) (b c : Int) (ty : CitType)
    (hpin : pin ≠ []) :
    strFalsyOpt (parseSection pin t b c ty).«section» = false := by
  unfold parseSection
  split
  · rcases pin with _ | ⟨c0, cs⟩
    · exact absurd rfl hpin
    · rfl
  · rename_i sec sub para hm
    have hne := matchSectionRef_sec_ne _ _ _ _ hm
    rcases sec with _ | ⟨c0, cs⟩
    · exact absurd rfl hne
    · rfl

/-
The canonical parse of a clean full citation, and the computation of its
two full renderings.
-/

lemma getLast?_append_some (A B : Str) (c : Char) (h : B.getLast? = some c) :
    (A ++ B).getLast? = some c := by
  rw [List.getLast?_append_of_ne_nil A (fun he => by subst he; simp at h)]
  exact h

lemma getLast?_cons_some (d : Char) (B : Str) (c : Char) (h : B.getLast? = some c) :
    (d :: B).getLast? = some c :=
  getLast?_append_some [d] B c h

lemma digits4_getLast (n : Nat) (h1 : 1000 ≤ n) (h2 : n ≤ 9999) :
    (natToDigits n).getLast? = some (digitCh (n % 10)) := by
  rw [natToDigits4 n h1 h2]
  rfl

lemma render_ne (pp : PinParts) (h : pp.WF) : pp.render ≠ [] := by
  obtain ⟨c, cs, hr, _⟩ := render_cons pp h
  rw [hr]
  simp

/-- The record parseCitation builds for a clean full citation: the
pinpoint decomposed by SECTION_REF, the trimmed title, and the paired
era years. -/
def mkParsed (pp : PinParts) (T : Str) (B : Nat) : ParsedCitation :=
  parseSection pp.render T (Int.ofNat B) (Int.ofNat B - 543) CitType.statute

lemma formatCitation_mkParsed_en (pp : PinParts) (T : Str) (B : Nat)
    (hWF : pp.WF) (hT : cleanTitle T) (hB1 : 1543 ≤ B) (hB2 : B ≤ 9999) :
    formatCitation (mkParsed pp T B) (str "full_en") =
      str "Section " ++ (pp.render ++ (',' :: ' ' :: (T ++ (str " B.E. " ++
        (natToDigits B ++ (str " (" ++ (natToDigits (B - 543) ++ [')']))))))) := by
  obtain ⟨hTne, hTchars, hThead, hTlast, hTthai⟩ := hT
  unfold mkParsed formatCitation
  split
  · rename_i hcond
    rw [parseSection_valid] at hcond
    rw [parseSection_strFalsy _ _ _ _ _ (render_ne pp hWF)] at hcond
    simp at hcond
  · dsimp only
    rw [if_neg (by decide), if_pos rfl]
    rw [buildPinpoint_parseSection]
    rw [parseSection_title, parseSection_be, parseSection_ce]
    rw [jsTrim_eq_self T hThead hTlast]
    rw [show optStr (some T) = T from rfl]
    rw [show optNumStr (some (Int.ofNat B)) = intToStr (Int.ofNat B) from rfl]
    have hce : Int.ofNat B - 543 = Int.ofNat (B - 543) := by
      simp only [Int.ofNat_eq_coe]
      omega
    rw [hce]
    rw [show optNumStr (some (Int.ofNat (B - 543))) = intToStr (Int.ofNat (B - 543)) from rfl]
    rw [intToStr_ofNat, intToStr_ofNat]
    simp only [List.append_assoc]
    rw [show (str ", " ++ (T ++ (str " B.E. " ++ (natToDigits B ++ (str " (" ++
        (natToDigits (B - 543) ++ [')']))))) : Str) =
      ',' :: ' ' :: (T ++ (str " B.E. " ++ (natToDigits B ++ (str " (" ++
        (natToDigits (B - 543) ++ [')']))))) from rfl]
    refine jsTrim_eq_self _ ?_ ?_
    · rw [show (str "Section " ++ (pp.render ++ (',' :: ' ' :: (T ++ (str " B.E. " ++
          (natToDigits B ++ (str " (" ++ (natToDigits (B - 543) ++ [')']))))))) : Str) =
        'S' :: (str "ection " ++ (pp.render ++ (',' :: ' ' :: (T ++ (str " B.E. " ++
          (natToDigits B ++ (str " (" ++ (natToDigits (B - 543) ++ [')'])))))))) from rfl]
      rw [List.head?_cons]
      decide
    · have hl : (str "Section " ++ (pp.render ++ (',' :: ' ' :: (T ++ (str " B.E. " ++
          (natToDigits B ++ (str " (" ++ (natToDigits (B - 543) ++ [')']))))))) : Str).getLast? =
          some ')' := by
        refine getLast?_append_some _ _ _ ?_
        refine getLast?_append_some _ _ _ ?_
        refine getLast?_cons_some _ _ _ ?_
        refine getLast?_cons_some _ _ _ ?_
        refine getLast?_append_some _ _ _ ?_
        refine getLast?_append_some _ _ _ ?_
        refine getLast?_append_some _ _ _ ?_
        refine getLast?_append_some _ _ _ ?_
        refine getLast?_append_some _ _ _ ?_
        rfl
      rw [hl]
      decide

lemma formatCitation_mkParsed_th (pp : PinParts) (T : Str) (B : Nat)
    (hWF : pp.WF) (hT : cleanTitle T) (hB1 : 1543 ≤ B) (hB2 : B ≤ 9999) :
    formatCitation (mkParsed pp T B) (str "full_th") =
      str "มาตรา " ++ (pp.render ++ (' ' :: (T ++ (str " พ.ศ. " ++ natToDigits B)))) := by
  obtain ⟨hTne, hTchars, hThead, hTlast, hTthai⟩ := hT
  unfold mkParsed formatCitation
  split
  · rename_i hcond
    rw [parseSection_valid] at hcond
    rw [parseSection_strFalsy _ _ _ _ _ (render_ne pp hWF)] at hcond
    simp at hcond
  · dsimp only
    rw [if_pos rfl]
    rw [buildPinpoint_parseSection]
    rw [parseSection_title, parseSection_be]
    rw [jsTrim_eq_self T hThead hTlast]
    rw [show optStr (some T) = T from rfl]
    rw [show optNumStr (some (Int.ofNat B)) = intToStr (Int.ofNat B) from rfl]
    rw [intToStr_ofNat]
    simp only [List.append_assoc, List.singleton_append, List.cons_append,
      List.nil_append]
    refine jsTrim_eq_self _ ?_ ?_
    · rw [show (str "มาตรา " ++ (pp.render ++ (' ' :: (T ++ (str " พ.ศ. " ++
          natToDigits B)))) : Str) =
        'ม' :: (str "าตรา " ++ (pp.render ++ (' ' :: (T ++ (str " พ.ศ. " ++
          natToDigits B))))) from rfl]
      rw [List.head?_cons]
      decide
    · have hl : (str "มาตรา " ++ (pp.render ++ (' ' :: (T ++ (str " พ.ศ. " ++
          natToDigits B)))) : Str).getLast? = some (digitCh (B % 10)) := by
        refine getLast?_append_some _ _ _ ?_
        refine getLast?_append_some _ _ _ ?_
        refine getLast?_cons_some _ _ _ ?_
        refine getLast?_append_some _ _ _ ?_
        refine getLast?_append_some _ _ _ ?_
        exact digits4_getLast B (by omega) hB2
      rw [hl]
      have hd := digit_not_ws (digitCh (B % 10))
        (digitCh_isDigit (B % 10) (Nat.mod_lt B (by omega)))
      simp [hd]

lemma reparse_en (pp : PinParts) (T : Str) (B : Nat)
    (hWF : pp.WF) (hT : cleanTitle T) (hB1 : 1543 ≤ B) (hB2 : B ≤ 9999) :
    parseCitation (str "Section " ++ (pp.render ++ (',' :: ' ' :: (T ++ (str " B.E. " ++
      (natToDigits B ++ (str " (" ++ (natToDigits (B - 543) ++ [')'])))))))) =
      mkParsed pp T B := by
  obtain ⟨hTne, hTchars, hThead, hTlast, hTthai⟩ := hT
  have hjs : jsTrim (str "Section " ++ (pp.render ++ (',' :: ' ' :: (T ++ (str " B.E. " ++
      (natToDigits B ++ (str " (" ++ (natToDigits (B - 543) ++ [')'])))))))) =
      str "Section " ++ (pp.render ++ (',' :: ' ' :: (T ++ (str " B.E. " ++
      (natToDigits B ++ (str " (" ++ (natToDigits (B - 543) ++ [')']))))))) := by
    refine jsTrim_eq_self _ ?_ ?_
    · rw [show (str "Section " ++ (pp.render ++ (',' :: ' ' :: (T ++ (str " B.E. " ++
          (natToDigits B ++ (str " (" ++ (natToDigits (B - 543) ++ [')']))))))) : Str) =
        'S' :: (str "ection " ++ (pp.render ++ (',' :: ' ' :: (T ++ (str " B.E. " ++
          (natToDigits B ++ (str " (" ++ (natToDigits (B - 543) ++ [')'])))))))) from rfl]
      rw [List.head?_cons]
      decide
    · have hl : (str "Section " ++ (pp.render ++ (',' :: ' ' :: (T ++ (str " B.E. " ++
          (natToDigits B ++ (str " (" ++ (natToDigits (B - 543) ++ [')']))))))) : Str).getLast? =
          some ')' := by
        refine getLast?_append_some _ _ _ ?_
        refine getLast?_append_some _ _ _ ?_
        refine getLast?_cons_some _ _ _ ?_
        refine getLast?_cons_some _ _ _ ?_
        refine getLast?_append_some _ _ _ ?_
        refine getLast?_append_some _ _ _ ?_
        refine getLast?_append_some _ _ _ ?_
        refine getLast?_append_some _ _ _ ?_
        refine getLast?_append_some _ _ _ ?_
        rfl
      rw [hl]
      decide
  have hYdig := (natToDigits4_digits B (by omega) hB2).2.1
  have hYlen := (natToDigits4_digits B (by omega) hB2).1
  have hCdig := (natToDigits4_digits (B - 543) (by omega) (by omega)).2.1
  have hClen := (natToDigits4_digits (B - 543) (by omega) (by omega)).1
  have hlazy : lazyDotPlus ebTail (T ++ (str " B.E. " ++ (natToDigits B ++
      (str " (" ++ (natToDigits (B - 543) ++ [')']))))) = some (T, natToDigits B) := by
    refine lazyDotPlus_exact ebTail T _ (natToDigits B) hTne
      (fun c hc => (hTchars c hc).1) ?_ ?_
    · intro k hk1 hk2
      exact ebTail_premature T (natToDigits B) (natToDigits (B - 543)) k hk2 hTlast
        hYdig hYlen hCdig hClen
    · rw [natToDigits4 B (by omega) hB2, natToDigits4 (B - 543) (by omega) (by omega)]
      exact ebTail_at _ _ _ _ _ _ _ _
        (digitCh_isDigit _ (by omega)) (digitCh_isDigit _ (by omega))
        (digitCh_isDigit _ (by omega)) (digitCh_isDigit _ (by omega))
        (digitCh_isDigit _ (by omega)) (digitCh_isDigit _ (by omega))
        (digitCh_isDigit _ (by omega)) (digitCh_isDigit _ (by omega))
  have hthai : thaiCit (jsTrim (str "Section " ++ (pp.render ++ (',' :: ' ' ::
      (T ++ (str " B.E. " ++ (natToDigits B ++ (str " (" ++
        (natToDigits (B - 543) ++ [')']))))))))) = none := by
    rw [hjs]
    rw [show (str "Section " ++ (pp.render ++ (',' :: ' ' :: (T ++ (str " B.E. " ++
        (natToDigits B ++ (str " (" ++ (natToDigits (B - 543) ++ [')']))))))) : Str) =
      'S' :: (str "ection " ++ (pp.render ++ (',' :: ' ' :: (T ++ (str " B.E. " ++
        (natToDigits B ++ (str " (" ++ (natToDigits (B - 543) ++ [')'])))))))) from rfl]
    exact thaiCit_cons_ne 'S' _ (by decide)
  have hen : englishBE (jsTrim (str "Section " ++ (pp.render ++ (',' :: ' ' ::
      (T ++ (str " B.E. " ++ (natToDigits B ++ (str " (" ++
        (natToDigits (B - 543) ++ [')']))))))))) =
      some (pp.render, T, natToDigits B) := by
    rw [hjs]
    exact englishBE_at pp T _ (natToDigits B) hWF hTne hThead hlazy
  rw [pc_enBE _ pp.render T (natToDigits B) hthai hen]
  rw [(natToDigits4_digits B (by omega) hB2).2.2]
  rfl

lemma reparse_th (pp : PinParts) (T : Str) (B : Nat)
    (hWF : pp.WF) (hT : cleanTitle T) (hB1 : 1543 ≤ B) (hB2 : B ≤ 9999) :
    parseCitation (str "มาตรา " ++ (pp.render ++ (' ' :: (T ++ (str " พ.ศ. " ++
      natToDigits B))))) = mkParsed pp T B := by
  obtain ⟨hTne, hTchars, hThead, hTlast, hTthai⟩ := hT
  have hjs : jsTrim (str "มาตรา " ++ (pp.render ++ (' ' :: (T ++ (str " พ.ศ. " ++
      natToDigits B))))) =
      str "มาตรา " ++ (pp.render ++ (' ' :: (T ++ (str " พ.ศ. " ++ natToDigits B)))) := by
    refine jsTrim_eq_self _ ?_ ?_
    · rw [show (str "มาตรา " ++ (pp.render ++ (' ' :: (T ++ (str " พ.ศ. " ++
          natToDigits B)))) : Str) =
        'ม' :: (str "าตรา " ++ (pp.render ++ (' ' :: (T ++ (str " พ.ศ. " ++
          natToDigits B))))) from rfl]
      rw [List.head?_cons]
      decide
    · have hl : (str "มาตรา " ++ (pp.render ++ (' ' :: (T ++ (str " พ.ศ. " ++
          natToDigits B)))) : Str).getLast? = some (digitCh (B % 10)) := by
        refine getLast?_append_some _ _ _ ?_
        refine getLast?_append_some _ _ _ ?_
        refine getLast?_cons_some _ _ _ ?_
        refine getLast?_append_some _ _ _ ?_
        refine getLast?_append_some _ _ _ ?_
        exact digits4_getLast B (by omega) hB2
      rw [hl]
      have hd := digit_not_ws (digitCh (B % 10))
        (digitCh_isDigit (B % 10) (Nat.mod_lt B (by omega)))
      simp [hd]
  have hYdig := (natToDigits4_digits B (by omega) hB2).2.1
  have hYlen := (natToDigits4_digits B (by omega) hB2).1
  have hlazy : lazyDotPlus thaiTail (T ++ (str " พ.ศ. " ++ natToDigits B)) =
      some (T, natToDigits B) := by
    refine lazyDotPlus_exact thaiTail T _ (natToDigits B) hTne
      (fun c hc => (hTchars c hc).1) ?_ ?_
    · intro k hk1 hk2
      exact thaiTail_premature T (natToDigits B) k hk2 hTlast hYdig hYlen
    · rw [natToDigits4 B (by omega) hB2]
      exact thaiTail_at _ _ _ _
        (digitCh_isDigit _ (by omega)) (digitCh_isDigit _ (by omega))
        (digitCh_isDigit _ (by omega)) (digitCh_isDigit _ (by omega))
  have hthai : thaiCit (jsTrim (str "มาตรา " ++ (pp.render ++ (' ' :: (T ++
      (str " พ.ศ. " ++ natToDigits B)))))) = some (pp.render, T, natToDigits B) := by
    rw [hjs]
    exact thaiCit_at pp T _ (natToDigits B) hWF hTne hThead hlazy
  rw [pc_thai _ pp.render T (natToDigits B) hthai]
  rw [jsTrim_eq_self T hThead hTlast, hTthai]
  rw [(natToDigits4_digits B (by omega) hB2).2.2]
  rfl

/-- C3 (amended): formatting and re-parsing is the identity on the
canonical parse of a clean full citation — a well-formed pinpoint, a
trimmed title free of digits, line terminators and Thai short-title
keys, and a four-digit Buddhist-era year carrying its paired western
year; both the full_en and the full_th renderings re-parse to the
identical ParsedCitation record.  (The unrestricted statement is false:
see the counterexample, where an id-based parse has no year and its
rendering does not survive a round trip.) -/
theorem c3_amended (pp : PinParts) (T : Str) (B : Nat)
    (hWF : pp.WF) (hT : cleanTitle T) (hB1 : 1543 ≤ B) (hB2 : B ≤ 9999) :
    parseCitation (formatCitation (mkParsed pp T B) (str "full_en")) = mkParsed pp T B ∧
    parseCitation (formatCitation (mkParsed pp T B) (str "full_th")) = mkParsed pp T B := by
  constructor
  · rw [formatCitation_mkParsed_en pp T B hWF hT hB1 hB2]
    exact reparse_en pp T B hWF hT hB1 hB2
  · rw [formatCitation_mkParsed_th pp T B hWF hT hB1 hB2]
    exact reparse_th pp T B hWF hT hB1 hB2

/-- Witness for the amended C3 at the PDPA citation: pinpoint "3",
title "Personal Data Protection Act", B.E. 2562. -/
theorem c3_amended_witness :
    (⟨str "3", none, []⟩ : PinParts).WF ∧
    cleanTitle (str "Personal Data Protection Act") ∧
    1543 ≤ 2562 ∧ 2562 ≤ 9999 ∧
    (parseCitation (formatCitation
        (mkParsed ⟨str "3", none, []⟩ (str "Personal Data Protection Act") 2562)
        (str "full_en")) =
      mkParsed ⟨str "3", none, []⟩ (str "Personal Data Protection Act") 2562 ∧
     parseCitation (formatCitation
        (mkParsed ⟨str "3", none, []⟩ (str "Personal Data Protection Act") 2562)
        (str "full_th")) =
      mkParsed ⟨str "3", none, []⟩ (str "Personal Data Protection Act") 2562) := by
  have hwf : (⟨str "3", none, []⟩ : PinParts).WF := by
    refine ⟨by decide, by decide, ?_, ?_⟩
    · intro d2 h
      cases h
    · intro g hg
      cases hg
  have hct : cleanTitle (str "Personal Data Protection Act") :=
    ⟨by decide, by decide, by decide, by decide, by decide⟩
  exact ⟨hwf, hct, by decide, by decide,
    c3_amended ⟨str "3", none, []⟩ (str "Personal Data Protection Act") 2562
      hwf hct (by decide) (by decide)⟩
